import Mathlib

/-!
Shallow embedding of the ReAct orchestration core of the `file-exchange`
repository (directory `src/Nikhil`).

Embedded source files:
* `src/Nikhil/python/steps.py` — `Status`, `Step`, `ToolCallStep` (pydantic models);
* `src/Nikhil/ChatMessage.py` — `ToolCall`, `ToolCallResult`, `ChatMessage`,
  `ChatCompletion` (incl. `FinishReason`);
* `src/Nikhil/python/executor_modlue.py` — `ExecutorModule.execute` (the
  "python draft"), embedded in namespace `Python`;
* `src/Nikhil/java/src/main/resources/python/executor_modlue.py` — the second
  translation draft of `ExecutorModule.execute`, embedded in namespace
  `Resources`;
* `src/Nikhil/java/src/main/resources/python/tool.py` — `AbstractTool.get_string`;
* `src/Nikhil/java/src/main/resources/python/toolable_react_agent.py` —
  `ToolableReactAgent.invoke`.

External collaborators (the OpenAI model gateway, concrete tools, the reviewer
model and the stdlib/pydantic JSON text (de)serialisation) are modelled as an
oracle `Env` whose behaviour is quantified over in the theorems: each oracle
function is indexed by the number of preceding calls of that kind in the run,
which covers every (possibly stateful) behaviour of a sequential collaborator.
-/

namespace ReactCore

/-- Execution status for a ReAct step (`Status` in `steps.py`). -/
inductive Status where
  | IN_PROGRESS
  | COMPLETED
  | ERROR
deriving DecidableEq

/-- String value of a `Status` member (it is a `str` enum in the source). -/
def Status.value : Status → String
  | .IN_PROGRESS => "IN_PROGRESS"
  | .COMPLETED => "COMPLETED"
  | .ERROR => "ERROR"

/-- Finish reasons of a model completion (`ChatCompletion.FinishReason` in
`ChatMessage.py`, a `str` subclass). -/
inductive FinishReason where
  | IN_PROGRESS
  | COMPLETED
  | TRUNCATED
  | INAPPROPRIATE
  | OTHER
deriving DecidableEq

/-- String value of a `FinishReason` (used when it is formatted into an
observation via an f-string). -/
def FinishReason.value : FinishReason → String
  | .IN_PROGRESS => "in_progress"
  | .COMPLETED => "completed"
  | .TRUNCATED => "truncated"
  | .INAPPROPRIATE => "inappropriate"
  | .OTHER => "other"

/-- JSON values, as produced by `json.loads` / pydantic `model_dump`.
Numbers are modelled as integers (no claim depends on float payloads). -/
inductive Json where
  | null
  | bool (b : Bool)
  | num (n : Int)
  | str (s : String)
  | arr (elems : List Json)
  | obj (fields : List (String × Json))

/-- Python `str.lower()` restricted to ASCII case mapping (all substrings the
executor searches for — `"error"`, `"continue"` — are ASCII). -/
def pyLower (s : String) : String := String.mk (s.data.map Char.toLower)

/-- Python substring containment `pat in s`. -/
def pyIn (pat s : String) : Bool :=
  (List.range (s.data.length + 1)).any (fun i => pat.data.isPrefixOf (s.data.drop i))

/-- Two-digit lowercase hex rendering of a byte (for JSON control-character
escapes). -/
def hexDigit (n : Nat) : String :=
  if n < 10 then String.mk [Char.ofNat (48 + n)] else String.mk [Char.ofNat (87 + n)]

/-- Escaping of one character inside a JSON string literal, as done by
`json.dumps` (non-ASCII `ensure_ascii` escaping is not exercised by any
embedded string). -/
def jsonEscapeChar (c : Char) : String :=
  if c = '"' then "\\\""
  else if c = '\\' then "\\\\"
  else if c = '\n' then "\\n"
  else if c = '\r' then "\\r"
  else if c = '\t' then "\\t"
  else if c.toNat < 32 then
    "\\u00" ++ hexDigit (c.toNat / 16) ++ hexDigit (c.toNat % 16)
  else String.mk [c]

/-- Escaping of a whole JSON string literal body. -/
def jsonEscape (s : String) : String :=
  String.join (s.data.map jsonEscapeChar)

mutual

/-- Compact JSON rendering, as `json.dumps(..., separators=(",", ":"))`. -/
def Json.dumps : Json → String
  | .null => "null"
  | .bool true => "true"
  | .bool false => "false"
  | .num n => toString n
  | .str s => "\"" ++ jsonEscape s ++ "\""
  | .arr elems => "[" ++ Json.dumpsList elems ++ "]"
  | .obj fields => "\x7b" ++ Json.dumpsObj fields ++ "\x7d"

/-- Comma-separated rendering of JSON array elements. -/
def Json.dumpsList : List Json → String
  | [] => ""
  | [j] => Json.dumps j
  | j :: rest => Json.dumps j ++ "," ++ Json.dumpsList rest

/-- Comma-separated rendering of JSON object members. -/
def Json.dumpsObj : List (String × Json) → String
  | [] => ""
  | [kv] => "\"" ++ jsonEscape kv.1 ++ "\":" ++ Json.dumps kv.2
  | kv :: rest =>
    "\"" ++ jsonEscape kv.1 ++ "\":" ++ Json.dumps kv.2 ++ "," ++ Json.dumpsObj rest

end

mutual

/-- Python `repr()` of a parsed-JSON value (string quoting approximated;
only scalar values reach `str()` in any theorem of this file). -/
def Json.pyRepr : Json → String
  | .null => "None"
  | .bool true => "True"
  | .bool false => "False"
  | .num n => toString n
  | .str s => "\x27" ++ s ++ "\x27"
  | .arr elems => "[" ++ Json.pyReprList elems ++ "]"
  | .obj fields => "\x7b" ++ Json.pyReprObj fields ++ "\x7d"

/-- Comma-separated Python repr of list elements. -/
def Json.pyReprList : List Json → String
  | [] => ""
  | [j] => Json.pyRepr j
  | j :: rest => Json.pyRepr j ++ ", " ++ Json.pyReprList rest

/-- Comma-separated Python repr of dict items. -/
def Json.pyReprObj : List (String × Json) → String
  | [] => ""
  | [kv] => "\x27" ++ kv.1 ++ "\x27: " ++ Json.pyRepr kv.2
  | kv :: rest =>
    "\x27" ++ kv.1 ++ "\x27: " ++ Json.pyRepr kv.2 ++ ", " ++ Json.pyReprObj rest

end

/-- Python `str()` of a parsed-JSON value. -/
def Json.pyStr : Json → String
  | .str s => s
  | j => j.pyRepr

/-- A ledger entry. `Step.base` is the plain `Step` pydantic model of
`steps.py`; `Step.toolCallStep` is its `ToolCallStep` subclass (the Python
ledger holds instances of both, distinguished with `isinstance`). -/
inductive Step where
  | base (status : Option Status) (actor : String) (thought : String)
      (observation : String)
  | toolCallStep (status : Option Status) (actor : String) (thought : String)
      (observation : String) (action : String) (action_input : String)
      (action_steps : List Step)

/-- Accessor for the `status` attribute. -/
def Step.status : Step → Option Status
  | .base st _ _ _ => st
  | .toolCallStep st _ _ _ _ _ _ => st

/-- Accessor for the `actor` attribute. -/
def Step.actor : Step → String
  | .base _ a _ _ => a
  | .toolCallStep _ a _ _ _ _ _ => a

/-- Accessor for the `thought` attribute. -/
def Step.thought : Step → String
  | .base _ _ t _ => t
  | .toolCallStep _ _ t _ _ _ _ => t

/-- Accessor for the `observation` attribute. -/
def Step.observation : Step → String
  | .base _ _ _ o => o
  | .toolCallStep _ _ _ o _ _ _ => o

/-- Python `isinstance(s, ToolCallStep)`. -/
def Step.isToolCallStep : Step → Bool
  | .base _ _ _ _ => false
  | .toolCallStep _ _ _ _ _ _ _ => true

/-- In-place assignment `s.status = x`, modelled functionally. -/
def Step.setStatus (s : Step) (x : Option Status) : Step :=
  match s with
  | .base _ a t o => .base x a t o
  | .toolCallStep _ a t o ac ai asubs => .toolCallStep x a t o ac ai asubs

/-- A step with its `status` field blanked; two steps with equal `eraseStatus`
agree on every field except possibly `status`. -/
def Step.eraseStatus (s : Step) : Step := s.setStatus none

/-- JSON dump of the `status` field value (the enum member is a `str`, so it
serialises to its value; `None` serialises to `null`). -/
def Status.dumpOpt : Option Status → Json
  | none => Json.null
  | some st => Json.str st.value

/-- The four base-model fields of a step, in the declaration order of the
pydantic `Step` model of `steps.py`. -/
def Step.dumpBaseFields (s : Step) : List (String × Json) :=
  [("status", Status.dumpOpt s.status),
   ("actor", Json.str s.actor),
   ("thought", Json.str s.thought),
   ("observation", Json.str s.observation)]

/-- Pydantic `model_dump()` of a step. Entries of `action_steps` are
serialised against their declared annotation `List[Step]`, i.e. with the four
base fields. -/
def Step.model_dump (s : Step) : Json :=
  match s with
  | .base _ _ _ _ => Json.obj s.dumpBaseFields
  | .toolCallStep _ _ _ _ ac ai asubs =>
    Json.obj (s.dumpBaseFields ++
      [("action", Json.str ac),
       ("action_input", Json.str ai),
       ("action_steps", Json.arr (asubs.map (fun t => Json.obj t.dumpBaseFields)))])

/-- Pydantic `model_dump(exclude=\x7b"action_steps"\x7d)`, used when the ledger is
serialised into the next prompt (`executor_modlue.py`). -/
def Step.model_dump_ex_action_steps (s : Step) : Json :=
  match s with
  | .base _ _ _ _ => Json.obj s.dumpBaseFields
  | .toolCallStep _ _ _ _ ac ai _ =>
    Json.obj (s.dumpBaseFields ++
      [("action", Json.str ac), ("action_input", Json.str ai)])

/-- A validated instance of the pydantic `Step` model (what
`TypeAdapter(Step).validate_json` returns: always the base model, never the
subclass). -/
structure ParsedStep where
  status : Option Status
  actor : String
  thought : String
  observation : String
deriving DecidableEq

/-- The `Step` object a `ParsedStep` denotes in the ledger. -/
def ParsedStep.toStep (p : ParsedStep) : Step :=
  .base p.status p.actor p.thought p.observation

/-- A validated instance of the pydantic `ToolCallStep` model. -/
structure ParsedToolCallStep where
  status : Option Status
  actor : String
  thought : String
  observation : String
  action : String
  action_input : String
  action_steps : List ParsedStep
deriving DecidableEq

/-- Field access on a JSON object (pydantic reads validated `dict`s produced
by `json.loads`; keys are unique there). -/
def Json.getField (j : Json) (k : String) : Option Json :=
  match j with
  | .obj fields => fields.lookup k
  | _ => none

/-- Pydantic validation of the optional `status` field: absent or `null` means
`None`; a string must be one of the three enum values. -/
def validateStatus (v : Option Json) : Except String (Option Status) :=
  match v with
  | none => .ok none
  | some .null => .ok none
  | some (.str "IN_PROGRESS") => .ok (some .IN_PROGRESS)
  | some (.str "COMPLETED") => .ok (some .COMPLETED)
  | some (.str "ERROR") => .ok (some .ERROR)
  | some _ => .error "Input should be IN_PROGRESS, COMPLETED or ERROR"

/-- Pydantic validation of a required `str` field. -/
def validateStr (j : Json) (k : String) : Except String String :=
  match j.getField k with
  | some (.str s) => .ok s
  | some _ => .error ("Input should be a valid string: " ++ k)
  | none => .error ("Field required: " ++ k)

/-- Pydantic validation of the `Step` model from a JSON value (extra fields
are ignored, `strict=False` as in `JsonSchema.deserialize`). -/
def Step.model_validate (j : Json) : Except String ParsedStep :=
  match j with
  | .obj _ => do
    let status ← validateStatus (j.getField "status")
    let actor ← validateStr j "actor"
    let thought ← validateStr j "thought"
    let observation ← validateStr j "observation"
    .ok ⟨status, actor, thought, observation⟩
  | _ => .error "Input should be an object"

/-- Pydantic validation of a `List[Step]` field value. -/
def validateStepList (elems : List Json) : Except String (List ParsedStep) :=
  match elems with
  | [] => .ok []
  | j :: rest => do
    let p ← Step.model_validate j
    let ps ← validateStepList rest
    .ok (p :: ps)

/-- Pydantic validation of the `ToolCallStep` model from a JSON value
(`action_steps` has `default_factory=list`, so a missing field yields `[]`). -/
def ToolCallStep.model_validate (j : Json) : Except String ParsedToolCallStep :=
  match j with
  | .obj _ => do
    let status ← validateStatus (j.getField "status")
    let actor ← validateStr j "actor"
    let thought ← validateStr j "thought"
    let observation ← validateStr j "observation"
    let action ← validateStr j "action"
    let action_input ← validateStr j "action_input"
    let action_steps ←
      match j.getField "action_steps" with
      | none => .ok []
      | some (.arr elems) => validateStepList elems
      | some _ => .error "Input should be a valid list: action_steps"
    .ok ⟨status, actor, thought, observation, action, action_input, action_steps⟩
  | _ => .error "Input should be an object"

/-- Outcome of a tool call (`ToolCallResult` in `ChatMessage.py`). -/
structure ToolCallResult where
  tool_call_id : String
  tool_id : String
  result : Option String
  is_error : Bool
deriving DecidableEq

/-- One tool invocation request (`ToolCall` in `ChatMessage.py`): its id, the
bound tool's id and the argument map. The last three fields are the oracle
part: what the external `call.execute()` (= `tool.invoke(call)`) does, and the
nested-agent ledgers exposed as `call.tool.steps` / `call.tool.agent.steps`
when those attributes exist. -/
structure ToolCall where
  id : String
  tool_id : String
  arguments : List (String × Json)
  execOutcome : Except String ToolCallResult
  toolStepsAttr : Option (List Step)
  toolAgentSteps : Option (List Step)

/-- Factory `ToolCallResult.from_call` (`ChatMessage.py`): wraps a plain
result text, `is_error` defaulting to `False`. -/
def ToolCallResult.from_call (call : ToolCall) (result : Option String) : ToolCallResult :=
  ⟨call.id, call.tool_id, result, false⟩

/-- Factory `ToolCallResult.from_exception` (`ChatMessage.py`): wraps a raised
exception into an error result with text `"Error: <exception>"`. -/
def ToolCallResult.from_exception (call : ToolCall) (exc : String) : ToolCallResult :=
  ⟨call.id, call.tool_id, some ("Error: " ++ exc), true⟩

/-- The model's reply message, reduced to what the executor observes: the
list returned by `get_tool_calls()` (`has_tool_calls()` is true exactly when
it is non-empty), the text returned by `get_text()`, and the outcome of
`reply.get_object(Step)` — the external pydantic/JSON text parse of that
text. -/
structure ChatMessage where
  tool_calls : List ToolCall
  text : String
  parsed : Except String ParsedStep

/-- Python `has_tool_calls()`. -/
def ChatMessage.has_tool_calls (m : ChatMessage) : Bool := !m.tool_calls.isEmpty

/-- The model gateway's reply wrapper (`ChatCompletion` in `ChatMessage.py`). -/
structure ChatCompletion where
  finish_reason : FinishReason
  message : ChatMessage

/-- Oracle for every external collaborator of one `execute()` run. Each
function is indexed by the number of earlier calls of the same kind in the
run, which captures arbitrary (also stateful) behaviour of the sequential
collaborators:
* `chat n` — outcome of the `n`-th model-gateway call: `.error e` when the
  call raises (exception text `e`), `.ok c` when it returns completion `c`;
* `review_tool_call n` — text returned by the reviewer's `n`-th
  `review_tool_call` critique;
* `review_conclusions n` — text returned by the reviewer's `n`-th
  `review_conclusions` critique (the `CriticModule` only reads the ledger;
  it never mutates it). -/
structure Env where
  chat : Nat → Except String ChatCompletion
  review_tool_call : Nat → String
  review_conclusions : Nat → String

/-- Static helper `AbstractTool.get_string` (`tool.py`): `default` when the
key is absent, `None` when the value is `None`, otherwise `str(value)`. -/
def AbstractTool.get_string (name : String) (args : List (String × Json))
    (dflt : Option String) : Option String :=
  match args.lookup name with
  | none => dflt
  | some .null => none
  | some v => some (Json.pyStr v)

/-- Modelled from the spec: the step ledger's `get_last_step` accessor is not
under `src/` (only its callers are); per spec §2 the ledger is an append-only
ordered sequence exposing the last step, so `get_last_step` returns the last
entry, or `None` on an empty ledger. -/
def ReactAgent.get_last_step (steps : List Step) : Option Step := steps.getLast?

/-- Modelled from the spec: `ReactAgent.add_step` is not under `src/`;
per spec §2–3 the ledger is append-only and mutated only through `add_step`,
so it appends one entry at the end. -/
def ReactAgent.add_step (steps : List Step) (s : Step) : List Step := steps ++ [s]

/-- In-place mutation `get_last_step().status = x`, as performed by the
executor after a conclusion review: the last entry's status is replaced, every
other entry and every other field is untouched (no-op on an empty ledger). -/
def setLastStatus (steps : List Step) (x : Option Status) : List Step :=
  match ReactAgent.get_last_step steps with
  | none => steps
  | some last => steps.dropLast ++ [last.setStatus x]

/-- Constructor parameters of an `ExecutorModule` that the loop observes: the
module's own id (`self.id`) and the `check_last_step` flag. -/
structure ExecConfig where
  id : String
  check_last_step : Bool

/-- State of one `execute()` run: the agent's step ledger, the mutable
`suggestion` local, and instrumentation counters for the number of
gateway / reviewer calls made so far (used to index the oracle and to state
claims about call counts). -/
structure ExecState where
  steps : List Step
  suggestion : String
  chat_calls : Nat
  review_tool_calls : Nat
  review_conclusion_calls : Nat

namespace Python

namespace ExecutorModule

/-- The step budget (`ExecutorModule.MAX_STEPS` in
`src/Nikhil/python/executor_modlue.py`). -/
def MAX_STEPS : Nat := 40

/-- The seed bookkeeping step appended before the loop (lines 247–263 of
`src/Nikhil/python/executor_modlue.py`), with its thought template filled. -/
def first_step (id command : String) : Step :=
  .base (some .IN_PROGRESS) id
    ("I am starting execution of the below user\x27s command in the <user_command> tag.\n\n<user_command>\n"
      ++ command ++ "\n</user_command>")
    "Execution just started."

/-- Serialisation of the ledger for the prompt: a JSON array of the steps,
excluding the `action_steps` field of `ToolCallStep` entries (lines 281–291). -/
def steps_json (steps : List Step) : String :=
  Json.dumps (Json.arr (steps.map (fun s =>
    if s.isToolCallStep then s.model_dump_ex_action_steps else s.model_dump)))

/-- The per-iteration prompt: `fill_slots` applied to the instructions
template `"<steps>\n\x7b\x7bsteps\x7d\x7d\n</steps>\n\nSuggestion: \x7b\x7bsuggestion\x7d\x7d"`. -/
def prompt (steps : List Step) (suggestion : String) : String :=
  "<steps>\n" ++ steps_json steps ++ "\n</steps>\n\nSuggestion: " ++ suggestion

/-- The `ERROR` step appended when the gateway call raises (lines 302–315). -/
def llm_error_step (id promptText exc : String) : Step :=
  .toolCallStep (some .ERROR) id "I had something in mind..." exc
    "LLM was called but this resulted in an error." promptText []

/-- The `ERROR` step appended when the completion's finish reason is not
`COMPLETED` (lines 317–330). -/
def llm_truncated_step (id promptText : String) (fr : FinishReason) : Step :=
  .toolCallStep (some .ERROR) id "I had something in mind..."
    ("Response finish reason: " ++ fr.value)
    "LLM was called but this resulted in a truncated message." promptText []

/-- The `ToolCallStep` recording one executed tool call (lines 350–369): the
`thought` argument is popped from the arguments (with a default), the
remaining arguments are re-serialised into `action_input`, `action_steps`
holds `call.tool.steps` when that attribute exists, and the observation is the
result text (empty for `None`). -/
def tool_call_step (id : String) (call : ToolCall) (result : ToolCallResult) : Step :=
  let args_no_thought := call.arguments.filter (fun kv => kv.1 ≠ "thought")
  let thought :=
    match call.arguments.lookup "thought" with
    | some v => v.pyStr
    | none => "No thought passed explicitely."
  .toolCallStep (some .IN_PROGRESS) id thought
    (match result.result with | none => "" | some s => s)
    ("The tool \"" ++ call.tool_id ++ "\" has been called")
    (Json.dumps (Json.obj args_no_thought))
    (match call.toolStepsAttr with | some l => l | none => [])

/-- The `for call in reply.message.get_tool_calls()` loop (lines 336–373):
each call is executed with exceptions wrapped via
`ToolCallResult.from_exception`, the error flag accumulates the exception
flag and the `"error"`-substring heuristic, a `ToolCallStep` is appended, and
the batch stops early once the ledger exceeds `MAX_STEPS` entries. -/
def process_tool_calls (id : String) : List Step → List ToolCall → Bool → List Step × Bool
  | steps, [], with_error => (steps, with_error)
  | steps, call :: rest, with_error =>
    let resWe : ToolCallResult × Bool :=
      match call.execOutcome with
      | .error exc => (ToolCallResult.from_exception call exc, true)
      | .ok r => (r, with_error)
    let we := resWe.2 ||
      (match resWe.1.result with
       | some s => pyIn "error" (pyLower s)
       | none => false)
    let steps := ReactAgent.add_step steps (tool_call_step id call resWe.1)
    if steps.length > MAX_STEPS then (steps, we)
    else process_tool_calls id steps rest we

/-- The loop condition (lines 269–276): continue while the ledger has fewer
than `MAX_STEPS` entries and the last step is absent, status-less or
`IN_PROGRESS`. -/
def loopGuard (steps : List Step) : Bool :=
  decide (steps.length < MAX_STEPS) &&
  (match ReactAgent.get_last_step steps with
   | none => true
   | some s =>
     match s.status with
     | none => true
     | some Status.IN_PROGRESS => true
     | some _ => false)

/-- The fixed strict suggestion issued after a non-final reflection step
(lines 415–419). -/
def strict_suggestion : String :=
  "**STRICTLY** if further actions are needed, proceed by calling appropriate tools, otherwise output a final step with status=\"COMPLETED\". Do not output same step repeatedly."

/-- One iteration of the `while` loop of `ExecutorModule.execute` (lines
277–428 of `src/Nikhil/python/executor_modlue.py`). The returned flag is
`true` when the iteration executed `break`. -/
def iterate (env : Env) (cfg : ExecConfig) (st : ExecState) : ExecState × Bool :=
  let promptText := prompt st.steps st.suggestion
  match env.chat st.chat_calls with
  | .error exc =>
    ({ st with
        steps := ReactAgent.add_step st.steps (llm_error_step cfg.id promptText exc),
        chat_calls := st.chat_calls + 1 }, true)
  | .ok reply =>
    let st := { st with chat_calls := st.chat_calls + 1 }
    if reply.finish_reason ≠ FinishReason.COMPLETED then
      ({ st with
          steps := ReactAgent.add_step st.steps
            (llm_truncated_step cfg.id promptText reply.finish_reason) }, true)
    else if reply.message.has_tool_calls then
      let pc := process_tool_calls cfg.id st.steps reply.message.tool_calls false
      let st := { st with steps := pc.1 }
      if st.steps.length ≤ MAX_STEPS then
        if pc.2 then
          ({ st with
              suggestion := env.review_tool_call st.review_tool_calls,
              review_tool_calls := st.review_tool_calls + 1 }, false)
        else ({ st with suggestion := "CONTINUE" }, false)
      else (st, false)
    else
      let appended :=
        match reply.message.parsed with
        | .ok p => Step.base p.status cfg.id p.thought p.observation
        | .error exc =>
          Step.base (some .ERROR) cfg.id
            ("I stopped because I encountered this error: " ++ exc)
            reply.message.text
      let steps1 := ReactAgent.add_step st.steps appended
      let st := { st with steps := steps1 }
      match ReactAgent.get_last_step steps1 with
      | none => (st, true) -- unreachable: a step was appended just above
      | some last =>
        if last.status ≠ some Status.IN_PROGRESS then
          if steps1.length > 1 &&
              !(steps1.getD (steps1.length - 2) appended).isToolCallStep &&
              cfg.check_last_step then
            ({ st with
                suggestion := env.review_conclusions st.review_conclusion_calls,
                review_conclusion_calls := st.review_conclusion_calls + 1 }, false)
          else ({ st with suggestion := strict_suggestion }, false)
        else if cfg.check_last_step then
          let sug := env.review_conclusions st.review_conclusion_calls
          let st := { st with
              suggestion := sug,
              review_conclusion_calls := st.review_conclusion_calls + 1 }
          if !(pyIn "continue" (pyLower sug)) then
            ({ st with steps := setLastStatus st.steps (some .IN_PROGRESS) }, false)
          else (st, false)
        else (st, false)

/-- The `while` loop, driven by fuel; `none` means the fuel ran out while the
guard still held (proved impossible for the fuel `execute` passes). -/
def loop (env : Env) (cfg : ExecConfig) : Nat → ExecState → Option ExecState
  | 0, st => if loopGuard st.steps then none else some st
  | Nat.succ fuel, st =>
    if loopGuard st.steps then
      let ib := iterate env cfg st
      if ib.2 then some ib.1 else loop env cfg fuel ib.1
    else some st

/-- The synthetic `ERROR` step appended when the step budget was exceeded
(lines 431–442). -/
def overflow_step (id : String) : Step :=
  .base (some .ERROR) id
    ("Execution was stopped because it exceeded maximum number of steps ("
      ++ toString MAX_STEPS ++ ").")
    "I probably entered some kind of loop."

/-- `ExecutorModule.execute(command)` of `src/Nikhil/python/executor_modlue.py`:
clear and seed the ledger, run the loop, and append the overflow step when the
budget was exhausted. Returns the final run state (the returned step is
`get_last_step` of its ledger); `none` would mean non-termination of the
embedded loop. -/
def execute (env : Env) (cfg : ExecConfig) (command : String) : Option ExecState :=
  let st0 : ExecState := ⟨[first_step cfg.id command], "CONTINUE", 0, 0, 0⟩
  match loop env cfg MAX_STEPS st0 with
  | none => none
  | some st =>
    if st.steps.length ≥ MAX_STEPS then
      some { st with steps := ReactAgent.add_step st.steps (overflow_step cfg.id) }
    else some st

/-- The step `execute` returns: `get_last_step()` of the final ledger. -/
def finalStep (st : ExecState) : Option Step := ReactAgent.get_last_step st.steps

end ExecutorModule

end Python

namespace Resources

namespace ExecutorModule

/-- The step budget (`ExecutorModule.MAX_STEPS` in
`src/Nikhil/java/src/main/resources/python/executor_modlue.py`). -/
def MAX_STEPS : Nat := 40

/-- The seed bookkeeping step of the resources draft (lines 124–140). -/
def first_step (id command : String) : Step :=
  .base (some .IN_PROGRESS) id
    ("I am starting execution of the below user\x27s command in <user_command>\n\n<user_command>\n"
      ++ command ++ "\n</user_command>")
    "Execution just started."

/-- Ledger serialisation for the prompt (lines 158–166), as in the python
draft. -/
def steps_json (steps : List Step) : String :=
  Json.dumps (Json.arr (steps.map (fun s =>
    if s.isToolCallStep then s.model_dump_ex_action_steps else s.model_dump)))

/-- The per-iteration prompt (lines 145, 168–171). -/
def prompt (steps : List Step) (suggestion : String) : String :=
  "<steps>\n" ++ steps_json steps ++ "\n</steps>\n\nSuggestion: " ++ suggestion

/-- The `ERROR` step appended when the gateway call raises (lines 175–188). -/
def llm_error_step (id promptText exc : String) : Step :=
  .toolCallStep (some .ERROR) id "I had something in mind..." exc
    "LLM was called but this resulted in an error." promptText []

/-- The `ERROR` step appended on a non-`COMPLETED` finish reason (lines
190–203). -/
def llm_truncated_step (id promptText : String) (fr : FinishReason) : Step :=
  .toolCallStep (some .ERROR) id "I had something in mind..."
    ("Response finish reason: " ++ fr.value)
    "LLM was called but this resulted in a truncated message." promptText []

/-- The `ToolCallStep` recording one executed tool call in the resources
draft (lines 220–236): default thought `"No thought passed explicitly."`,
`action_input` via `JsonSchema.serialize` (modelled as JSON dumping of the
argument map), `action_steps` from `call.tool.agent.steps` when the tool has
an `agent` attribute, and observation `str(result.result)` (so `"None"` for a
`None` result). -/
def tool_call_step (id : String) (call : ToolCall) (result : ToolCallResult) : Step :=
  let args_no_thought := call.arguments.filter (fun kv => kv.1 ≠ "thought")
  let thought :=
    match call.arguments.lookup "thought" with
    | some v => v.pyStr
    | none => "No thought passed explicitly."
  .toolCallStep (some .IN_PROGRESS) id thought
    (match result.result with | none => "None" | some s => s)
    ("The tool \"" ++ call.tool_id ++ "\" has been called")
    (Json.dumps (Json.obj args_no_thought))
    (match call.toolAgentSteps with | some l => l | none => [])

/-- The tool-call batch loop of the resources draft (lines 208–240): the
`"error"`-substring heuristic runs only on the non-exception path (the
`try/except/else` shape), and the batch stops once the ledger exceeds
`MAX_STEPS` entries. -/
def process_tool_calls (id : String) : List Step → List ToolCall → Bool → List Step × Bool
  | steps, [], with_error => (steps, with_error)
  | steps, call :: rest, with_error =>
    let resWe : ToolCallResult × Bool :=
      match call.execOutcome with
      | .error exc => (ToolCallResult.from_exception call exc, true)
      | .ok r =>
        (r, with_error ||
          (match r.result with
           | some s => pyIn "error" (pyLower s)
           | none => false))
    let steps := ReactAgent.add_step steps (tool_call_step id call resWe.1)
    if steps.length > MAX_STEPS then (steps, resWe.2)
    else process_tool_calls id steps rest resWe.2

/-- The loop condition of the resources draft (lines 148–155), identical to
the python draft's. -/
def loopGuard (steps : List Step) : Bool :=
  decide (steps.length < MAX_STEPS) &&
  (match ReactAgent.get_last_step steps with
   | none => true
   | some s =>
     match s.status with
     | none => true
     | some Status.IN_PROGRESS => true
     | some _ => false)

/-- The strict suggestion of the resources draft (lines 264–266). -/
def strict_suggestion : String :=
  "**STRICTLY** proceed with next steps, by calling appropriate tools."

/-- One iteration of the `while` loop of the resources draft's
`ExecutorModule.execute` (lines 148–270). The returned flag is `true` when
the iteration executed `break`. -/
def iterate (env : Env) (cfg : ExecConfig) (st : ExecState) : ExecState × Bool :=
  let promptText := prompt st.steps st.suggestion
  match env.chat st.chat_calls with
  | .error exc =>
    ({ st with
        steps := ReactAgent.add_step st.steps (llm_error_step cfg.id promptText exc),
        chat_calls := st.chat_calls + 1 }, true)
  | .ok reply =>
    let st := { st with chat_calls := st.chat_calls + 1 }
    if reply.finish_reason ≠ FinishReason.COMPLETED then
      ({ st with
          steps := ReactAgent.add_step st.steps
            (llm_truncated_step cfg.id promptText reply.finish_reason) }, true)
    else if reply.message.has_tool_calls then
      let pc := process_tool_calls cfg.id st.steps reply.message.tool_calls false
      let st := { st with steps := pc.1 }
      if pc.2 then
        ({ st with
            suggestion := env.review_tool_call st.review_tool_calls,
            review_tool_calls := st.review_tool_calls + 1 }, false)
      else ({ st with suggestion := "CONTINUE" }, false)
    else
      let appended :=
        match reply.message.parsed with
        | .ok p => Step.base p.status cfg.id p.thought p.observation
        | .error exc =>
          Step.base (some .ERROR) cfg.id
            ("I stopped because I encountered this error: " ++ exc)
            reply.message.text
      let steps1 := ReactAgent.add_step st.steps appended
      let st := { st with steps := steps1 }
      match ReactAgent.get_last_step steps1 with
      | none => (st, true) -- unreachable: a step was appended just above
      | some last =>
        if last.status = some Status.IN_PROGRESS then
          ({ st with suggestion := strict_suggestion }, false)
        else if cfg.check_last_step then
          let sug := env.review_conclusions st.review_conclusion_calls
          let st := { st with
              suggestion := sug,
              review_conclusion_calls := st.review_conclusion_calls + 1 }
          if !(pyIn "continue" (pyLower sug)) then
            ({ st with steps := setLastStatus st.steps (some .IN_PROGRESS) }, false)
          else (st, false)
        else (st, false)

/-- The `while` loop of the resources draft, driven by fuel. -/
def loop (env : Env) (cfg : ExecConfig) : Nat → ExecState → Option ExecState
  | 0, st => if loopGuard st.steps then none else some st
  | Nat.succ fuel, st =>
    if loopGuard st.steps then
      let ib := iterate env cfg st
      if ib.2 then some ib.1 else loop env cfg fuel ib.1
    else some st

/-- The synthetic overflow `ERROR` step (lines 273–286). -/
def overflow_step (id : String) : Step :=
  .base (some .ERROR) id
    ("Execution was stopped because it exceeded maximum number of steps ("
      ++ toString MAX_STEPS ++ ").")
    "I probably entered some kind of loop."

/-- `ExecutorModule.execute(command)` of the resources draft
(`src/Nikhil/java/src/main/resources/python/executor_modlue.py`). -/
def execute (env : Env) (cfg : ExecConfig) (command : String) : Option ExecState :=
  let st0 : ExecState :=
    ⟨[first_step cfg.id command],
     "No suggestions. Proceed as you see best, using the tools at your disposal.",
     0, 0, 0⟩
  match loop env cfg MAX_STEPS st0 with
  | none => none
  | some st =>
    if st.steps.length ≥ MAX_STEPS then
      some { st with steps := ReactAgent.add_step st.steps (overflow_step cfg.id) }
    else some st

/-- The step `execute` returns: `get_last_step()` of the final ledger. -/
def finalStep (st : ExecState) : Option Step := ReactAgent.get_last_step st.steps

end ExecutorModule

end Resources

/-- `ToolableReactAgent.invoke(call)` of
`src/Nikhil/java/src/main/resources/python/toolable_react_agent.py`, for an
initialized tool: extract the mandatory `question` argument (absent or `None`
→ an immediate error result, no model call), otherwise delegate to the
underlying agent's `execute` (the executor draft of the same directory) and
map the final step to a `ToolCallResult`. The second component counts the
model-gateway calls the invocation performed. -/
def ToolableReactAgent.invoke (env : Env) (cfg : ExecConfig) (call : ToolCall) :
    Option (ToolCallResult × Nat) :=
  match AbstractTool.get_string "question" call.arguments none with
  | none =>
    some (ToolCallResult.from_call call
      (some "ERROR: You must provide a command to execute as \"question\" parameter."), 0)
  | some question =>
    match Resources.ExecutorModule.execute env cfg question with
    | none => none
    | some st =>
      match Resources.ExecutorModule.finalStep st with
      | none => none
      | some result_step =>
        if result_step.status = some Status.ERROR then
          some (ToolCallResult.from_call call
            (some ("ERROR: " ++ result_step.observation)), st.chat_calls)
        else
          some (ToolCallResult.from_call call (some result_step.observation), st.chat_calls)

/-- Per-call error flag of the executor's tool-call batch: the call's
execution raised, or its result text contains `"error"` case-insensitively
(the accumulated `with_error` of lines 338–348 of
`src/Nikhil/python/executor_modlue.py`, per call). -/
def tool_call_failed (c : ToolCall) : Bool :=
  match c.execOutcome with
  | .error _ => true
  | .ok r =>
    match r.result with
    | some s => pyIn "error" (pyLower s)
    | none => false

/-! Concrete fixtures used by witness and counterexample theorems. -/

/-- A completion whose text parses as a final `COMPLETED` step. -/
def doneReply : ChatCompletion :=
  ⟨.COMPLETED, ⟨[], "final step text", .ok ⟨some .COMPLETED, "model-self", "All done.", "Done."⟩⟩⟩

/-- A completion whose text parses as an `IN_PROGRESS` reflection step. -/
def reflectReply : ChatCompletion :=
  ⟨.COMPLETED, ⟨[], "reflection text", .ok ⟨some .IN_PROGRESS, "model-self", "thinking", "ok"⟩⟩⟩

/-- An environment whose model always concludes and whose reviewer vetoes the
conclusion (the critique contains no `"continue"`). -/
def envDone : Env :=
  ⟨fun _ => .ok doneReply, fun _ => "CONTINUE",
   fun _ => "You still have to send the email to the customer."⟩

/-- An environment whose model never concludes (always an `IN_PROGRESS`
reflection). -/
def envReflect : Env :=
  ⟨fun _ => .ok reflectReply, fun _ => "CONTINUE", fun _ => "CONTINUE"⟩

/-- An environment whose model gateway raises on every call. -/
def envRaise : Env := ⟨fun _ => .error "boom", fun _ => "CONTINUE", fun _ => "CONTINUE"⟩

/-- Executor configuration with last-step verification disabled. -/
def cfgPlain : ExecConfig := ⟨"x-executor", false⟩

/-- Executor configuration with last-step verification enabled. -/
def cfgChecked : ExecConfig := ⟨"x-executor", true⟩

/-- A tool call whose capability raises. -/
def callBad : ToolCall :=
  ⟨"call-2", "sendMail", [("to", .str "jd")], .error "SMTP down", none, none⟩

/-- A tool call carrying no `question` argument. -/
def callNoQuestion : ToolCall :=
  ⟨"call-3", "agentTool", [("thought", .str "ask the sub-agent")],
   .ok ⟨"call-3", "agentTool", none, false⟩, none, none⟩

/-- A tool call with a `question` argument. -/
def callQuestion : ToolCall :=
  ⟨"call-4", "agentTool", [("question", .str "Send the email.")],
   .ok ⟨"call-4", "agentTool", none, false⟩, none, none⟩

/-- An environment whose model requests the failing tool call once and whose
reviewer replies with a corrective tool critique. -/
def envToolErr : Env :=
  ⟨fun _ => .ok ⟨.COMPLETED, ⟨[callBad], "", .error "no text"⟩⟩,
   fun _ => "Fix the SMTP configuration.", fun _ => "CONTINUE"⟩

/-- The run state just after seeding the ledger (python draft), for the
command `"mail it"`. -/
def seededState : ExecState :=
  ⟨[Python.ExecutorModule.first_step "x-executor" "mail it"], "CONTINUE", 0, 0, 0⟩

/-! Helper lemmas. -/

@[simp]
theorem Step.setStatus_actor (s : Step) (x : Option Status) :
    (s.setStatus x).actor = s.actor := by
  cases s <;> rfl

@[simp]
theorem Step.setStatus_status (s : Step) (x : Option Status) :
    (s.setStatus x).status = x := by
  cases s <;> rfl

theorem Step.setStatus_eraseStatus (s : Step) (x : Option Status) :
    (s.setStatus x).eraseStatus = s.eraseStatus := by
  cases s <;> rfl

@[simp]
theorem add_step_eq (l : List Step) (a : Step) :
    ReactAgent.add_step l a = l ++ [a] := rfl

@[simp]
theorem get_last_step_concat (l : List Step) (a : Step) :
    ReactAgent.get_last_step (l ++ [a]) = some a := by
  simp [ReactAgent.get_last_step]

@[simp]
theorem setLastStatus_concat (l : List Step) (a : Step) (x : Option Status) :
    setLastStatus (l ++ [a]) x = l ++ [a.setStatus x] := by
  simp [setLastStatus, ReactAgent.get_last_step]

theorem py_tool_call_step_actor (id : String) (c : ToolCall) (r : ToolCallResult) :
    (Python.ExecutorModule.tool_call_step id c r).actor = id := rfl

theorem py_ptc_front (id : String) (calls : List ToolCall) :
    ∀ (steps : List Step) (we : Bool),
      steps <+: (Python.ExecutorModule.process_tool_calls id steps calls we).1 := by
  induction calls with
  | nil =>
    intro steps we
    simp [Python.ExecutorModule.process_tool_calls]
  | cons c rest ih =>
    intro steps we
    simp only [Python.ExecutorModule.process_tool_calls, add_step_eq]
    split
    · exact List.prefix_append _ _
    · exact (List.prefix_append _ _).trans (ih _ _)

theorem py_ptc_length_le (id : String) (calls : List ToolCall) :
    ∀ (steps : List Step) (we : Bool),
      steps.length ≤ Python.ExecutorModule.MAX_STEPS →
      (Python.ExecutorModule.process_tool_calls id steps calls we).1.length ≤
        Python.ExecutorModule.MAX_STEPS + 1 := by
  induction calls with
  | nil =>
    intro steps we h
    simpa [Python.ExecutorModule.process_tool_calls] using Nat.le_succ_of_le h
  | cons c rest ih =>
    intro steps we h
    simp only [Python.ExecutorModule.process_tool_calls, add_step_eq]
    split
    · next hgt =>
      simp only [List.length_append, List.length_singleton]
      omega
    · next hle =>
      refine ih _ _ ?_
      simp only [List.length_append, List.length_singleton] at hle ⊢
      omega

theorem py_ptc_grow (id : String) (c : ToolCall) (rest : List ToolCall)
    (steps : List Step) (we : Bool) :
    steps.length + 1 ≤
      (Python.ExecutorModule.process_tool_calls id steps (c :: rest) we).1.length := by
  simp only [Python.ExecutorModule.process_tool_calls, add_step_eq]
  split
  · simp
  · exact le_trans (by simp) (List.IsPrefix.length_le (py_ptc_front id rest _ _))

theorem py_ptc_with_error (id : String) (calls : List ToolCall) :
    ∀ (steps : List Step) (we : Bool),
      (Python.ExecutorModule.process_tool_calls id steps calls we).1.length ≤
        Python.ExecutorModule.MAX_STEPS →
      (Python.ExecutorModule.process_tool_calls id steps calls we).2 =
        (we || calls.any tool_call_failed) := by
  induction calls with
  | nil =>
    intro steps we _
    simp [Python.ExecutorModule.process_tool_calls]
  | cons c rest ih =>
    intro steps we h
    rw [List.any_cons]
    rcases hout : c.execOutcome with exc | r
    · simp only [Python.ExecutorModule.process_tool_calls, add_step_eq, hout] at h ⊢
      split at h
      · next hgt => exact absurd h (by simpa using hgt)
      · next hle =>
        rw [if_neg hle, ih _ _ h]
        simp [tool_call_failed, hout]
    · simp only [Python.ExecutorModule.process_tool_calls, add_step_eq, hout] at h ⊢
      split at h
      · next hgt => exact absurd h (by simpa using hgt)
      · next hle =>
        rw [if_neg hle, ih _ _ h]
        simp only [tool_call_failed, hout]
        cases hr : r.result <;> simp [Bool.or_assoc]

theorem py_ptc_actor (id : String) (calls : List ToolCall) :
    ∀ (steps : List Step) (we : Bool),
      (∀ s ∈ steps, s.actor = id) →
      ∀ s ∈ (Python.ExecutorModule.process_tool_calls id steps calls we).1, s.actor = id := by
  induction calls with
  | nil =>
    intro steps we hinv
    simpa [Python.ExecutorModule.process_tool_calls] using hinv
  | cons c rest ih =>
    intro steps we hinv
    rcases hout : c.execOutcome with exc | r <;>
      simp only [Python.ExecutorModule.process_tool_calls, add_step_eq, hout] <;>
      [skip; skip] <;>
      split <;>
      first
      | (intro s hs
         rcases List.mem_append.mp hs with hs | hs
         · exact hinv s hs
         · rcases List.mem_singleton.mp hs with rfl
           exact py_tool_call_step_actor id c _)
      | (refine ih _ _ ?_
         intro s hs
         rcases List.mem_append.mp hs with hs | hs
         · exact hinv s hs
         · rcases List.mem_singleton.mp hs with rfl
           exact py_tool_call_step_actor id c _)

theorem py_iterate_chat_error (env : Env) (cfg : ExecConfig) (st : ExecState) (exc : String)
    (hchat : env.chat st.chat_calls = .error exc) :
    Python.ExecutorModule.iterate env cfg st =
      ({ st with
          steps := st.steps ++ [Python.ExecutorModule.llm_error_step cfg.id
            (Python.ExecutorModule.prompt st.steps st.suggestion) exc],
          chat_calls := st.chat_calls + 1 }, true) := by
  simp [Python.ExecutorModule.iterate, hchat]

theorem py_iterate_truncated (env : Env) (cfg : ExecConfig) (st : ExecState)
    (reply : ChatCompletion)
    (hchat : env.chat st.chat_calls = .ok reply)
    (hfr : reply.finish_reason ≠ FinishReason.COMPLETED) :
    Python.ExecutorModule.iterate env cfg st =
      ({ st with
          steps := st.steps ++ [Python.ExecutorModule.llm_truncated_step cfg.id
            (Python.ExecutorModule.prompt st.steps st.suggestion) reply.finish_reason],
          chat_calls := st.chat_calls + 1 }, true) := by
  simp [Python.ExecutorModule.iterate, hchat, hfr]

theorem py_iterate_tool_calls (env : Env) (cfg : ExecConfig) (st : ExecState)
    (reply : ChatCompletion)
    (hchat : env.chat st.chat_calls = .ok reply)
    (hfr : reply.finish_reason = FinishReason.COMPLETED)
    (hcalls : reply.message.tool_calls ≠ []) :
    Python.ExecutorModule.iterate env cfg st =
      (let pc := Python.ExecutorModule.process_tool_calls cfg.id st.steps
          reply.message.tool_calls false
       if pc.1.length ≤ Python.ExecutorModule.MAX_STEPS then
         if pc.2 then
           ({ st with
               steps := pc.1,
               chat_calls := st.chat_calls + 1,
               suggestion := env.review_tool_call st.review_tool_calls,
               review_tool_calls := st.review_tool_calls + 1 }, false)
         else
           ({ st with
               steps := pc.1,
               chat_calls := st.chat_calls + 1,
               suggestion := "CONTINUE" }, false)
       else
         ({ st with
             steps := pc.1,
             chat_calls := st.chat_calls + 1 }, false)) := by
  have htc : reply.message.has_tool_calls = true := by
    simp [ChatMessage.has_tool_calls, hcalls]
  simp only [Python.ExecutorModule.iterate, hchat, hfr, htc]
  simp

theorem py_iterate_no_tool_calls (env : Env) (cfg : ExecConfig) (st : ExecState)
    (reply : ChatCompletion)
    (hchat : env.chat st.chat_calls = .ok reply)
    (hfr : reply.finish_reason = FinishReason.COMPLETED)
    (hcalls : reply.message.tool_calls = []) :
    Python.ExecutorModule.iterate env cfg st =
      (let appended :=
         match reply.message.parsed with
         | .ok p => Step.base p.status cfg.id p.thought p.observation
         | .error exc =>
           Step.base (some .ERROR) cfg.id
             ("I stopped because I encountered this error: " ++ exc)
             reply.message.text
       let steps1 := st.steps ++ [appended]
       let st1 : ExecState :=
         { st with chat_calls := st.chat_calls + 1, steps := steps1 }
       if appended.status ≠ some Status.IN_PROGRESS then
         if steps1.length > 1 &&
             !(steps1.getD (steps1.length - 2) appended).isToolCallStep &&
             cfg.check_last_step then
           ({ st1 with
               suggestion := env.review_conclusions st.review_conclusion_calls,
               review_conclusion_calls := st.review_conclusion_calls + 1 }, false)
         else ({ st1 with suggestion := Python.ExecutorModule.strict_suggestion }, false)
       else if cfg.check_last_step then
         let sug := env.review_conclusions st.review_conclusion_calls
         if !(pyIn "continue" (pyLower sug)) then
           ({ st1 with
               suggestion := sug,
               review_conclusion_calls := st.review_conclusion_calls + 1,
               steps := st.steps ++ [appended.setStatus (some Status.IN_PROGRESS)] }, false)
         else
           ({ st1 with
               suggestion := sug,
               review_conclusion_calls := st.review_conclusion_calls + 1 }, false)
       else (st1, false)) := by
  have htc : reply.message.has_tool_calls = false := by
    simp [ChatMessage.has_tool_calls, hcalls]
  simp only [Python.ExecutorModule.iterate, hchat, hfr, htc]
  simp only [add_step_eq, get_last_step_concat, setLastStatus_concat]
  simp

theorem py_iterate_extends (env : Env) (cfg : ExecConfig) (st : ExecState) :
    ∃ tail, (Python.ExecutorModule.iterate env cfg st).1.steps = st.steps ++ tail := by
  rcases hchat : env.chat st.chat_calls with exc | reply
  · rw [py_iterate_chat_error env cfg st exc hchat]
    exact ⟨_, rfl⟩
  · by_cases hfr : reply.finish_reason = FinishReason.COMPLETED
    · by_cases hcalls : reply.message.tool_calls = []
      · rw [py_iterate_no_tool_calls env cfg st reply hchat hfr hcalls]
        dsimp only
        split
        · split
          · exact ⟨_, rfl⟩
          · exact ⟨_, rfl⟩
        · split
          · split
            · exact ⟨_, rfl⟩
            · exact ⟨_, rfl⟩
          · exact ⟨_, rfl⟩
      · rw [py_iterate_tool_calls env cfg st reply hchat hfr hcalls]
        obtain ⟨t, ht⟩ := py_ptc_front cfg.id reply.message.tool_calls st.steps false
        dsimp only
        split
        · split
          · exact ⟨t, ht.symm⟩
          · exact ⟨t, ht.symm⟩
        · exact ⟨t, ht.symm⟩
    · rw [py_iterate_truncated env cfg st reply hchat hfr]
      exact ⟨_, rfl⟩

theorem py_iterate_length_grow (env : Env) (cfg : ExecConfig) (st : ExecState) :
    st.steps.length + 1 ≤ (Python.ExecutorModule.iterate env cfg st).1.steps.length := by
  rcases hchat : env.chat st.chat_calls with exc | reply
  · rw [py_iterate_chat_error env cfg st exc hchat]
    simp
  · by_cases hfr : reply.finish_reason = FinishReason.COMPLETED
    · by_cases hcalls : reply.message.tool_calls = []
      · rw [py_iterate_no_tool_calls env cfg st reply hchat hfr hcalls]
        dsimp only
        split
        · split <;> simp
        · split
          · split <;> simp
          · simp
      · rw [py_iterate_tool_calls env cfg st reply hchat hfr hcalls]
        obtain ⟨c, cs, hcc⟩ := List.exists_cons_of_ne_nil hcalls
        rw [hcc]
        have hg := py_ptc_grow cfg.id c cs st.steps false
        dsimp only
        split
        · split <;> exact hg
        · exact hg
    · rw [py_iterate_truncated env cfg st reply hchat hfr]
      simp

theorem py_iterate_length_le (env : Env) (cfg : ExecConfig) (st : ExecState)
    (h : st.steps.length < Python.ExecutorModule.MAX_STEPS) :
    (Python.ExecutorModule.iterate env cfg st).1.steps.length ≤
      Python.ExecutorModule.MAX_STEPS + 1 := by
  rcases hchat : env.chat st.chat_calls with exc | reply
  · rw [py_iterate_chat_error env cfg st exc hchat]
    simp only [List.length_append, List.length_singleton]
    omega
  · by_cases hfr : reply.finish_reason = FinishReason.COMPLETED
    · by_cases hcalls : reply.message.tool_calls = []
      · rw [py_iterate_no_tool_calls env cfg st reply hchat hfr hcalls]
        dsimp only
        split
        · split <;> (simp only [List.length_append, List.length_singleton]; omega)
        · split
          · split <;> (simp only [List.length_append, List.length_singleton]; omega)
          · simp only [List.length_append, List.length_singleton]
            omega
      · rw [py_iterate_tool_calls env cfg st reply hchat hfr hcalls]
        have hb := py_ptc_length_le cfg.id reply.message.tool_calls st.steps false
          (Nat.le_of_lt h)
        dsimp only
        split
        · split <;> exact hb
        · exact hb
    · rw [py_iterate_truncated env cfg st reply hchat hfr]
      simp only [List.length_append, List.length_singleton]
      omega

theorem py_llm_error_step_actor (id p exc : String) :
    (Python.ExecutorModule.llm_error_step id p exc).actor = id := rfl

theorem py_llm_truncated_step_actor (id p : String) (fr : FinishReason) :
    (Python.ExecutorModule.llm_truncated_step id p fr).actor = id := rfl

theorem py_iterate_actor (env : Env) (cfg : ExecConfig) (st : ExecState)
    (hinv : ∀ s ∈ st.steps, s.actor = cfg.id) :
    ∀ s ∈ (Python.ExecutorModule.iterate env cfg st).1.steps, s.actor = cfg.id := by
  have hsnoc : ∀ (a : Step), a.actor = cfg.id →
      ∀ s ∈ st.steps ++ [a], s.actor = cfg.id := by
    intro a ha s hs
    rcases List.mem_append.mp hs with hs | hs
    · exact hinv s hs
    · rcases List.mem_singleton.mp hs with rfl
      exact ha
  rcases hchat : env.chat st.chat_calls with exc | reply
  · rw [py_iterate_chat_error env cfg st exc hchat]
    exact hsnoc _ (py_llm_error_step_actor cfg.id _ exc)
  · by_cases hfr : reply.finish_reason = FinishReason.COMPLETED
    · by_cases hcalls : reply.message.tool_calls = []
      · rw [py_iterate_no_tool_calls env cfg st reply hchat hfr hcalls]
        rcases reply.message.parsed with exc | p <;> dsimp only <;>
        · split
          · split
            · exact hsnoc _ rfl
            · exact hsnoc _ rfl
          · split
            · split
              · exact hsnoc _ (by rw [Step.setStatus_actor]; rfl)
              · exact hsnoc _ rfl
            · exact hsnoc _ rfl
      · rw [py_iterate_tool_calls env cfg st reply hchat hfr hcalls]
        have hptc := py_ptc_actor cfg.id reply.message.tool_calls st.steps false hinv
        dsimp only
        split
        · split <;> exact hptc
        · exact hptc
    · rw [py_iterate_truncated env cfg st reply hchat hfr]
      exact hsnoc _ (py_llm_truncated_step_actor cfg.id _ reply.finish_reason)

theorem py_guard_lt (steps : List Step)
    (h : Python.ExecutorModule.loopGuard steps = true) :
    steps.length < Python.ExecutorModule.MAX_STEPS := by
  simp only [Python.ExecutorModule.loopGuard, Bool.and_eq_true, decide_eq_true_eq] at h
  exact h.1

theorem py_loop_isSome (env : Env) (cfg : ExecConfig) :
    ∀ (fuel : Nat) (st : ExecState),
      Python.ExecutorModule.MAX_STEPS ≤ st.steps.length + fuel →
      (Python.ExecutorModule.loop env cfg fuel st).isSome := by
  intro fuel
  induction fuel with
  | zero =>
    intro st h
    have hng : ¬ (st.steps.length < Python.ExecutorModule.MAX_STEPS) := by omega
    simp [Python.ExecutorModule.loop, Python.ExecutorModule.loopGuard, hng]
  | succ fuel ih =>
    intro st h
    simp only [Python.ExecutorModule.loop]
    by_cases hg : Python.ExecutorModule.loopGuard st.steps = true
    · rw [if_pos hg]
      split
      · simp
      · refine ih _ ?_
        have := py_iterate_length_grow env cfg st
        omega
    · simp [hg]

theorem py_loop_bound (env : Env) (cfg : ExecConfig) :
    ∀ (fuel : Nat) (st st' : ExecState),
      st.steps.length ≤ Python.ExecutorModule.MAX_STEPS + 1 →
      Python.ExecutorModule.loop env cfg fuel st = some st' →
      st'.steps.length ≤ Python.ExecutorModule.MAX_STEPS + 1 := by
  intro fuel
  induction fuel with
  | zero =>
    intro st st' h hloop
    simp only [Python.ExecutorModule.loop] at hloop
    split at hloop
    · exact absurd hloop (by simp)
    · cases hloop
      exact h
  | succ fuel ih =>
    intro st st' h hloop
    simp only [Python.ExecutorModule.loop] at hloop
    split at hloop
    · next hg =>
      have hlt := py_guard_lt st.steps hg
      have hle := py_iterate_length_le env cfg st hlt
      split at hloop
      · cases hloop
        exact hle
      · exact ih _ _ hle hloop
    · cases hloop
      exact h

theorem py_loop_actor (env : Env) (cfg : ExecConfig) :
    ∀ (fuel : Nat) (st st' : ExecState),
      (∀ s ∈ st.steps, s.actor = cfg.id) →
      Python.ExecutorModule.loop env cfg fuel st = some st' →
      ∀ s ∈ st'.steps, s.actor = cfg.id := by
  intro fuel
  induction fuel with
  | zero =>
    intro st st' h hloop
    simp only [Python.ExecutorModule.loop] at hloop
    split at hloop
    · exact absurd hloop (by simp)
    · cases hloop
      exact h
  | succ fuel ih =>
    intro st st' h hloop
    simp only [Python.ExecutorModule.loop] at hloop
    split at hloop
    · next hg =>
      have hit := py_iterate_actor env cfg st h
      split at hloop
      · cases hloop
        exact hit
      · exact ih _ _ hit hloop
    · cases hloop
      exact h

theorem py_first_step_actor (id command : String) :
    (Python.ExecutorModule.first_step id command).actor = id := rfl

theorem py_overflow_step_actor (id : String) :
    (Python.ExecutorModule.overflow_step id).actor = id := rfl

theorem py_execute_total_bound (env : Env) (cfg : ExecConfig) (command : String) :
    ∃ st, Python.ExecutorModule.execute env cfg command = some st ∧
      st.steps.length ≤ Python.ExecutorModule.MAX_STEPS + 2 := by
  have h0 : Python.ExecutorModule.MAX_STEPS ≤
      ([Python.ExecutorModule.first_step cfg.id command] : List Step).length +
        Python.ExecutorModule.MAX_STEPS := by simp
  have hsome := py_loop_isSome env cfg Python.ExecutorModule.MAX_STEPS
    ⟨[Python.ExecutorModule.first_step cfg.id command], "CONTINUE", 0, 0, 0⟩ h0
  obtain ⟨st, hst⟩ := Option.isSome_iff_exists.mp hsome
  have hb := py_loop_bound env cfg Python.ExecutorModule.MAX_STEPS
    ⟨[Python.ExecutorModule.first_step cfg.id command], "CONTINUE", 0, 0, 0⟩ st
    (by simp [Python.ExecutorModule.MAX_STEPS]) hst
  simp only [Python.ExecutorModule.execute, hst]
  rcases Nat.lt_or_ge st.steps.length Python.ExecutorModule.MAX_STEPS with hlt | hge
  · rw [if_neg (by omega)]
    exact ⟨st, rfl, by omega⟩
  · rw [if_pos hge]
    refine ⟨_, rfl, ?_⟩
    show (st.steps ++ [Python.ExecutorModule.overflow_step cfg.id]).length ≤ _
    simp only [List.length_append, List.length_singleton]
    omega

theorem py_execute_actor (env : Env) (cfg : ExecConfig) (command : String)
    (st : ExecState) (hex : Python.ExecutorModule.execute env cfg command = some st) :
    ∀ s ∈ st.steps, s.actor = cfg.id := by
  simp only [Python.ExecutorModule.execute] at hex
  rcases hloop : Python.ExecutorModule.loop env cfg Python.ExecutorModule.MAX_STEPS
      ⟨[Python.ExecutorModule.first_step cfg.id command], "CONTINUE", 0, 0, 0⟩ with _ | st0
  · rw [hloop] at hex
    exact absurd hex (by simp)
  · rw [hloop] at hex
    dsimp only at hex
    have hinv0 : ∀ s ∈ ([Python.ExecutorModule.first_step cfg.id command] : List Step),
        s.actor = cfg.id := by
      intro s hs
      rcases List.mem_singleton.mp hs with rfl
      exact py_first_step_actor cfg.id command
    have hst0 := py_loop_actor env cfg Python.ExecutorModule.MAX_STEPS _ st0 hinv0 hloop
    rcases Nat.lt_or_ge st0.steps.length Python.ExecutorModule.MAX_STEPS with hlt | hge
    · rw [if_neg (by omega)] at hex
      cases hex
      exact hst0
    · rw [if_pos hge] at hex
      cases hex
      intro s hs
      rcases List.mem_append.mp hs with hs | hs
      · exact hst0 s hs
      · rcases List.mem_singleton.mp hs with rfl
        exact py_overflow_step_actor cfg.id

theorem res_ptc_front (id : String) (calls : List ToolCall) :
    ∀ (steps : List Step) (we : Bool),
      steps <+: (Resources.ExecutorModule.process_tool_calls id steps calls we).1 := by
  induction calls with
  | nil =>
    intro steps we
    simp [Resources.ExecutorModule.process_tool_calls]
  | cons c rest ih =>
    intro steps we
    simp only [Resources.ExecutorModule.process_tool_calls, add_step_eq]
    split
    · exact List.prefix_append _ _
    · exact (List.prefix_append _ _).trans (ih _ _)

theorem res_ptc_length_le (id : String) (calls : List ToolCall) :
    ∀ (steps : List Step) (we : Bool),
      steps.length ≤ Resources.ExecutorModule.MAX_STEPS →
      (Resources.ExecutorModule.process_tool_calls id steps calls we).1.length ≤
        Resources.ExecutorModule.MAX_STEPS + 1 := by
  induction calls with
  | nil =>
    intro steps we h
    simpa [Resources.ExecutorModule.process_tool_calls] using Nat.le_succ_of_le h
  | cons c rest ih =>
    intro steps we h
    simp only [Resources.ExecutorModule.process_tool_calls, add_step_eq]
    split
    · next hgt =>
      simp only [List.length_append, List.length_singleton]
      omega
    · next hle =>
      refine ih _ _ ?_
      simp only [List.length_append, List.length_singleton] at hle ⊢
      omega

theorem res_ptc_grow (id : String) (c : ToolCall) (rest : List ToolCall)
    (steps : List Step) (we : Bool) :
    steps.length + 1 ≤
      (Resources.ExecutorModule.process_tool_calls id steps (c :: rest) we).1.length := by
  simp only [Resources.ExecutorModule.process_tool_calls, add_step_eq]
  split
  · simp
  · exact le_trans (by simp) (List.IsPrefix.length_le (res_ptc_front id rest _ _))

theorem res_iterate_chat_error (env : Env) (cfg : ExecConfig) (st : ExecState) (exc : String)
    (hchat : env.chat st.chat_calls = .error exc) :
    Resources.ExecutorModule.iterate env cfg st =
      ({ st with
          steps := st.steps ++ [Resources.ExecutorModule.llm_error_step cfg.id
            (Resources.ExecutorModule.prompt st.steps st.suggestion) exc],
          chat_calls := st.chat_calls + 1 }, true) := by
  simp [Resources.ExecutorModule.iterate, hchat]

theorem res_iterate_truncated (env : Env) (cfg : ExecConfig) (st : ExecState)
    (reply : ChatCompletion)
    (hchat : env.chat st.chat_calls = .ok reply)
    (hfr : reply.finish_reason ≠ FinishReason.COMPLETED) :
    Resources.ExecutorModule.iterate env cfg st =
      ({ st with
          steps := st.steps ++ [Resources.ExecutorModule.llm_truncated_step cfg.id
            (Resources.ExecutorModule.prompt st.steps st.suggestion) reply.finish_reason],
          chat_calls := st.chat_calls + 1 }, true) := by
  simp [Resources.ExecutorModule.iterate, hchat, hfr]

theorem res_iterate_tool_calls (env : Env) (cfg : ExecConfig) (st : ExecState)
    (reply : ChatCompletion)
    (hchat : env.chat st.chat_calls = .ok reply)
    (hfr : reply.finish_reason = FinishReason.COMPLETED)
    (hcalls : reply.message.tool_calls ≠ []) :
    Resources.ExecutorModule.iterate env cfg st =
      (let pc := Resources.ExecutorModule.process_tool_calls cfg.id st.steps
          reply.message.tool_calls false
       if pc.2 then
         ({ st with
             steps := pc.1,
             chat_calls := st.chat_calls + 1,
             suggestion := env.review_tool_call st.review_tool_calls,
             review_tool_calls := st.review_tool_calls + 1 }, false)
       else
         ({ st with
             steps := pc.1,
             chat_calls := st.chat_calls + 1,
             suggestion := "CONTINUE" }, false)) := by
  have htc : reply.message.has_tool_calls = true := by
    simp [ChatMessage.has_tool_calls, hcalls]
  simp only [Resources.ExecutorModule.iterate, hchat, hfr, htc]
  simp

theorem res_iterate_no_tool_calls (env : Env) (cfg : ExecConfig) (st : ExecState)
    (reply : ChatCompletion)
    (hchat : env.chat st.chat_calls = .ok reply)
    (hfr : reply.finish_reason = FinishReason.COMPLETED)
    (hcalls : reply.message.tool_calls = []) :
    Resources.ExecutorModule.iterate env cfg st =
      (let appended :=
         match reply.message.parsed with
         | .ok p => Step.base p.status cfg.id p.thought p.observation
         | .error exc =>
           Step.base (some .ERROR) cfg.id
             ("I stopped because I encountered this error: " ++ exc)
             reply.message.text
       let steps1 := st.steps ++ [appended]
       let st1 : ExecState :=
         { st with chat_calls := st.chat_calls + 1, steps := steps1 }
       if appended.status = some Status.IN_PROGRESS then
         ({ st1 with suggestion := Resources.ExecutorModule.strict_suggestion }, false)
       else if cfg.check_last_step then
         let sug := env.review_conclusions st.review_conclusion_calls
         if !(pyIn "continue" (pyLower sug)) then
           ({ st1 with
               suggestion := sug,
               review_conclusion_calls := st.review_conclusion_calls + 1,
               steps := st.steps ++ [appended.setStatus (some Status.IN_PROGRESS)] }, false)
         else
           ({ st1 with
               suggestion := sug,
               review_conclusion_calls := st.review_conclusion_calls + 1 }, false)
       else (st1, false)) := by
  have htc : reply.message.has_tool_calls = false := by
    simp [ChatMessage.has_tool_calls, hcalls]
  simp only [Resources.ExecutorModule.iterate, hchat, hfr, htc]
  simp only [add_step_eq, get_last_step_concat, setLastStatus_concat]
  simp

theorem res_iterate_extends (env : Env) (cfg : ExecConfig) (st : ExecState) :
    ∃ tail, (Resources.ExecutorModule.iterate env cfg st).1.steps = st.steps ++ tail := by
  rcases hchat : env.chat st.chat_calls with exc | reply
  · rw [res_iterate_chat_error env cfg st exc hchat]
    exact ⟨_, rfl⟩
  · by_cases hfr : reply.finish_reason = FinishReason.COMPLETED
    · by_cases hcalls : reply.message.tool_calls = []
      · rw [res_iterate_no_tool_calls env cfg st reply hchat hfr hcalls]
        dsimp only
        split
        · exact ⟨_, rfl⟩
        · split
          · split
            · exact ⟨_, rfl⟩
            · exact ⟨_, rfl⟩
          · exact ⟨_, rfl⟩
      · rw [res_iterate_tool_calls env cfg st reply hchat hfr hcalls]
        obtain ⟨t, ht⟩ := res_ptc_front cfg.id reply.message.tool_calls st.steps false
        dsimp only
        split
        · exact ⟨t, ht.symm⟩
        · exact ⟨t, ht.symm⟩
    · rw [res_iterate_truncated env cfg st reply hchat hfr]
      exact ⟨_, rfl⟩

theorem res_iterate_length_grow (env : Env) (cfg : ExecConfig) (st : ExecState) :
    st.steps.length + 1 ≤ (Resources.ExecutorModule.iterate env cfg st).1.steps.length := by
  rcases hchat : env.chat st.chat_calls with exc | reply
  · rw [res_iterate_chat_error env cfg st exc hchat]
    simp
  · by_cases hfr : reply.finish_reason = FinishReason.COMPLETED
    · by_cases hcalls : reply.message.tool_calls = []
      · rw [res_iterate_no_tool_calls env cfg st reply hchat hfr hcalls]
        dsimp only
        split
        · simp
        · split
          · split <;> simp
          · simp
      · rw [res_iterate_tool_calls env cfg st reply hchat hfr hcalls]
        obtain ⟨c, cs, hcc⟩ := List.exists_cons_of_ne_nil hcalls
        rw [hcc]
        have hg := res_ptc_grow cfg.id c cs st.steps false
        dsimp only
        split
        · exact hg
        · exact hg
    · rw [res_iterate_truncated env cfg st reply hchat hfr]
      simp

theorem res_iterate_length_le (env : Env) (cfg : ExecConfig) (st : ExecState)
    (h : st.steps.length < Resources.ExecutorModule.MAX_STEPS) :
    (Resources.ExecutorModule.iterate env cfg st).1.steps.length ≤
      Resources.ExecutorModule.MAX_STEPS + 1 := by
  rcases hchat : env.chat st.chat_calls with exc | reply
  · rw [res_iterate_chat_error env cfg st exc hchat]
    simp only [List.length_append, List.length_singleton]
    omega
  · by_cases hfr : reply.finish_reason = FinishReason.COMPLETED
    · by_cases hcalls : reply.message.tool_calls = []
      · rw [res_iterate_no_tool_calls env cfg st reply hchat hfr hcalls]
        dsimp only
        split
        · simp only [List.length_append, List.length_singleton]
          omega
        · split
          · split <;> (simp only [List.length_append, List.length_singleton]; omega)
          · simp only [List.length_append, List.length_singleton]
            omega
      · rw [res_iterate_tool_calls env cfg st reply hchat hfr hcalls]
        have hb := res_ptc_length_le cfg.id reply.message.tool_calls st.steps false
          (Nat.le_of_lt h)
        dsimp only
        split
        · exact hb
        · exact hb
    · rw [res_iterate_truncated env cfg st reply hchat hfr]
      simp only [List.length_append, List.length_singleton]
      omega

theorem res_guard_lt (steps : List Step)
    (h : Resources.ExecutorModule.loopGuard steps = true) :
    steps.length < Resources.ExecutorModule.MAX_STEPS := by
  simp only [Resources.ExecutorModule.loopGuard, Bool.and_eq_true, decide_eq_true_eq] at h
  exact h.1

theorem res_loop_isSome (env : Env) (cfg : ExecConfig) :
    ∀ (fuel : Nat) (st : ExecState),
      Resources.ExecutorModule.MAX_STEPS ≤ st.steps.length + fuel →
      (Resources.ExecutorModule.loop env cfg fuel st).isSome := by
  intro fuel
  induction fuel with
  | zero =>
    intro st h
    have hng : ¬ (st.steps.length < Resources.ExecutorModule.MAX_STEPS) := by omega
    simp [Resources.ExecutorModule.loop, Resources.ExecutorModule.loopGuard, hng]
  | succ fuel ih =>
    intro st h
    simp only [Resources.ExecutorModule.loop]
    by_cases hg : Resources.ExecutorModule.loopGuard st.steps = true
    · rw [if_pos hg]
      split
      · simp
      · refine ih _ ?_
        have := res_iterate_length_grow env cfg st
        omega
    · simp [hg]

theorem res_loop_front (env : Env) (cfg : ExecConfig) :
    ∀ (fuel : Nat) (st st' : ExecState),
      Resources.ExecutorModule.loop env cfg fuel st = some st' →
      st.steps <+: st'.steps := by
  intro fuel
  induction fuel with
  | zero =>
    intro st st' hloop
    simp only [Resources.ExecutorModule.loop] at hloop
    split at hloop
    · exact absurd hloop (by simp)
    · cases hloop
      exact List.prefix_refl _
  | succ fuel ih =>
    intro st st' hloop
    simp only [Resources.ExecutorModule.loop] at hloop
    split at hloop
    · obtain ⟨tail, htail⟩ := res_iterate_extends env cfg st
      split at hloop
      · cases hloop
        exact ⟨tail, htail.symm⟩
      · exact List.IsPrefix.trans ⟨tail, htail.symm⟩ (ih _ _ hloop)
    · cases hloop
      exact List.prefix_refl _

theorem res_execute_isSome (env : Env) (cfg : ExecConfig) (command : String) :
    ∃ st, Resources.ExecutorModule.execute env cfg command = some st ∧
      st.steps ≠ [] := by
  have h0 : Resources.ExecutorModule.MAX_STEPS ≤
      ([Resources.ExecutorModule.first_step cfg.id command] : List Step).length +
        Resources.ExecutorModule.MAX_STEPS := by simp
  have hsome := res_loop_isSome env cfg Resources.ExecutorModule.MAX_STEPS
    ⟨[Resources.ExecutorModule.first_step cfg.id command],
     "No suggestions. Proceed as you see best, using the tools at your disposal.",
     0, 0, 0⟩ h0
  obtain ⟨st, hst⟩ := Option.isSome_iff_exists.mp hsome
  have hpre := res_loop_front env cfg Resources.ExecutorModule.MAX_STEPS _ st hst
  have hne : st.steps ≠ [] := by
    intro hnil
    have := hpre.length_le
    rw [hnil] at this
    simp at this
  simp only [Resources.ExecutorModule.execute, hst]
  rcases Nat.lt_or_ge st.steps.length Resources.ExecutorModule.MAX_STEPS with hlt | hge
  · rw [if_neg (by omega)]
    exact ⟨st, rfl, hne⟩
  · rw [if_pos hge]
    refine ⟨_, rfl, ?_⟩
    show st.steps ++ [Resources.ExecutorModule.overflow_step cfg.id] ≠ []
    simp

theorem res_conclusion_veto_forces_in_progress (env : Env) (cfg : ExecConfig)
    (st : ExecState) (reply : ChatCompletion) (p : ParsedStep)
    (hchat : env.chat st.chat_calls = .ok reply)
    (hfr : reply.finish_reason = FinishReason.COMPLETED)
    (hcalls : reply.message.tool_calls = [])
    (hp : reply.message.parsed = .ok p)
    (hstat : p.status ≠ some Status.IN_PROGRESS)
    (hcheck : cfg.check_last_step = true)
    (hveto : pyIn "continue"
      (pyLower (env.review_conclusions st.review_conclusion_calls)) = false) :
    Resources.ExecutorModule.iterate env cfg st =
      ({ st with
          steps := st.steps ++
            [Step.base (some Status.IN_PROGRESS) cfg.id p.thought p.observation],
          suggestion := env.review_conclusions st.review_conclusion_calls,
          chat_calls := st.chat_calls + 1,
          review_conclusion_calls := st.review_conclusion_calls + 1 }, false) := by
  rw [res_iterate_no_tool_calls env cfg st reply hchat hfr hcalls]
  rw [hp]
  dsimp only
  rw [if_neg (by simpa [Step.status] using hstat)]
  rw [if_pos hcheck, if_pos (by simp [hveto])]
  rfl

/-! Claim theorems. -/

/-- C8: serializing a `Step` (and a `ToolCallStep` with the `action_steps`
field excluded) to JSON and parsing it back yields a step whose `status`,
`actor`, `thought` and `observation` (and, for `ToolCallStep`, `action` and
`action_input`) equal the original's. -/
theorem C8_step_serialization_round_trip :
    (∀ (st : Option Status) (ac th ob : String),
      Step.model_validate (Step.model_dump (.base st ac th ob)) =
        .ok ⟨st, ac, th, ob⟩) ∧
    (∀ (st : Option Status) (ac th ob a ai : String) (asubs : List Step),
      ToolCallStep.model_validate
        (Step.model_dump_ex_action_steps (.toolCallStep st ac th ob a ai asubs)) =
        .ok ⟨st, ac, th, ob, a, ai, []⟩) := by
  constructor
  · intro st ac th ob
    rcases st with _ | s
    · rfl
    · cases s <;> rfl
  · intro st ac th ob a ai asubs
    rcases st with _ | s
    · rfl
    · cases s <;> rfl

/-- C2 counterexample: with a model that always replies with a valid
`IN_PROGRESS` step, `execute` leaves a ledger of 41 entries while
`MAX_STEPS = 40` — more than the claimed "at most `MAX_STEPS` entries,
counting the seed step". -/
theorem C2_counterexample_ledger_exceeds_MAX_STEPS :
    (Python.ExecutorModule.execute envReflect cfgPlain "loop forever").map
        (fun st => st.steps.length) = some 41 ∧
      Python.ExecutorModule.MAX_STEPS = 40 := by
  exact ⟨rfl, rfl⟩

/-- C2 (amended): for every behaviour of the gateway, reviewer and tools,
`execute(command)` terminates, and the final ledger holds at most
`MAX_STEPS + 2` entries (`MAX_STEPS + 1` when no tool-call batch overflows
the budget; the seed step, the budget-exceeding entry and the synthetic
overflow step account for the slack). -/
theorem C2_execute_terminates_within_MAX_STEPS_plus_two
    (env : Env) (cfg : ExecConfig) (command : String) :
    ∃ st, Python.ExecutorModule.execute env cfg command = some st ∧
      st.steps.length ≤ Python.ExecutorModule.MAX_STEPS + 2 :=
  py_execute_total_bound env cfg command

/-- C3: a raising gateway call, or a completion whose finish reason is not
`COMPLETED`, appends a final `ERROR` step recording the exception text
(respectively the finish reason) and breaks the loop at once; if the gateway
raises on every call, `execute` returns after exactly one model-call attempt
with the ledger holding exactly the seed step and the error step. -/
theorem C3_gateway_failure_short_circuits :
    (∀ (env : Env) (cfg : ExecConfig) (st : ExecState) (exc : String),
      env.chat st.chat_calls = .error exc →
      Python.ExecutorModule.iterate env cfg st =
        ({ st with
            steps := st.steps ++ [Python.ExecutorModule.llm_error_step cfg.id
              (Python.ExecutorModule.prompt st.steps st.suggestion) exc],
            chat_calls := st.chat_calls + 1 }, true) ∧
      (Python.ExecutorModule.llm_error_step cfg.id
          (Python.ExecutorModule.prompt st.steps st.suggestion) exc).status =
        some Status.ERROR ∧
      (Python.ExecutorModule.llm_error_step cfg.id
          (Python.ExecutorModule.prompt st.steps st.suggestion) exc).observation = exc) ∧
    (∀ (env : Env) (cfg : ExecConfig) (st : ExecState) (reply : ChatCompletion),
      env.chat st.chat_calls = .ok reply →
      reply.finish_reason ≠ FinishReason.COMPLETED →
      Python.ExecutorModule.iterate env cfg st =
        ({ st with
            steps := st.steps ++ [Python.ExecutorModule.llm_truncated_step cfg.id
              (Python.ExecutorModule.prompt st.steps st.suggestion) reply.finish_reason],
            chat_calls := st.chat_calls + 1 }, true) ∧
      (Python.ExecutorModule.llm_truncated_step cfg.id
          (Python.ExecutorModule.prompt st.steps st.suggestion)
          reply.finish_reason).status = some Status.ERROR ∧
      (Python.ExecutorModule.llm_truncated_step cfg.id
          (Python.ExecutorModule.prompt st.steps st.suggestion)
          reply.finish_reason).observation =
        ("Response finish reason: " ++ reply.finish_reason.value)) ∧
    (∀ (env : Env) (cfg : ExecConfig) (command : String) (excOf : Nat → String),
      (∀ n, env.chat n = .error (excOf n)) →
      Python.ExecutorModule.execute env cfg command =
        some ⟨[Python.ExecutorModule.first_step cfg.id command,
               Python.ExecutorModule.llm_error_step cfg.id
                 (Python.ExecutorModule.prompt
                   [Python.ExecutorModule.first_step cfg.id command] "CONTINUE")
                 (excOf 0)],
              "CONTINUE", 1, 0, 0⟩) := by
  refine ⟨?_, ?_, ?_⟩
  · intro env cfg st exc h
    exact ⟨py_iterate_chat_error env cfg st exc h, rfl, rfl⟩
  · intro env cfg st reply h hfr
    exact ⟨py_iterate_truncated env cfg st reply h hfr, rfl, rfl⟩
  · intro env cfg command excOf h
    have hguard : Python.ExecutorModule.loopGuard
        [Python.ExecutorModule.first_step cfg.id command] = true := rfl
    have hiter := py_iterate_chat_error env cfg
      ⟨[Python.ExecutorModule.first_step cfg.id command], "CONTINUE", 0, 0, 0⟩
      (excOf 0) (h 0)
    simp only [Python.ExecutorModule.execute, Python.ExecutorModule.loop,
      hguard, if_pos, hiter]
    rfl

/-- Witness for C3: with a gateway that raises `"boom"` on every call, the
run makes one attempt and ends with the seed step plus one `ERROR` step. -/
theorem C3_witness :
    Python.ExecutorModule.execute envRaise cfgChecked "do it" =
      some ⟨[Python.ExecutorModule.first_step "x-executor" "do it",
             Python.ExecutorModule.llm_error_step "x-executor"
               (Python.ExecutorModule.prompt
                 [Python.ExecutorModule.first_step "x-executor" "do it"] "CONTINUE")
               "boom"],
            "CONTINUE", 1, 0, 0⟩ :=
  C3_gateway_failure_short_circuits.2.2 envRaise cfgChecked "do it"
    (fun _ => "boom") (fun _ => rfl)

/-- C4: after a tool-call batch is processed, the suggestion driving the next
prompt is the Reviewer's tool-call critique when some call raised or some
result text contains `"error"` case-insensitively, and the literal
`"CONTINUE"` otherwise; when the batch overflowed the step budget the
suggestion is not updated, but then the loop guard fails and no further
prompt is built. -/
theorem C4_suggestion_after_tool_batch (env : Env) (cfg : ExecConfig) (st : ExecState)
    (reply : ChatCompletion)
    (hchat : env.chat st.chat_calls = .ok reply)
    (hfr : reply.finish_reason = FinishReason.COMPLETED)
    (hcalls : reply.message.tool_calls ≠ []) :
    (Python.ExecutorModule.iterate env cfg st).2 = false ∧
    ((Python.ExecutorModule.process_tool_calls cfg.id st.steps
        reply.message.tool_calls false).1.length ≤ Python.ExecutorModule.MAX_STEPS →
      (Python.ExecutorModule.iterate env cfg st).1.suggestion =
        (if reply.message.tool_calls.any tool_call_failed then
          env.review_tool_call st.review_tool_calls
         else "CONTINUE")) ∧
    ((Python.ExecutorModule.process_tool_calls cfg.id st.steps
        reply.message.tool_calls false).1.length > Python.ExecutorModule.MAX_STEPS →
      (Python.ExecutorModule.iterate env cfg st).1.suggestion = st.suggestion ∧
      Python.ExecutorModule.loopGuard
        (Python.ExecutorModule.iterate env cfg st).1.steps = false) := by
  rw [py_iterate_tool_calls env cfg st reply hchat hfr hcalls]
  dsimp only
  refine ⟨?_, ?_, ?_⟩
  · split
    · split <;> rfl
    · rfl
  · intro hle
    rw [if_pos hle]
    have hwe := py_ptc_with_error cfg.id reply.message.tool_calls st.steps false hle
    rw [Bool.false_or] at hwe
    cases hb : (Python.ExecutorModule.process_tool_calls cfg.id st.steps
        reply.message.tool_calls false).2
    · rw [hwe] at hb
      simp [hb]
    · rw [hwe] at hb
      simp [hb]
  · intro hgt
    rw [if_neg (by omega)]
    refine ⟨rfl, ?_⟩
    have hnl : ¬((Python.ExecutorModule.process_tool_calls cfg.id st.steps
        reply.message.tool_calls false).1.length <
          Python.ExecutorModule.MAX_STEPS) := by omega
    simp [Python.ExecutorModule.loopGuard, decide_eq_false hnl]

/-- Witness for C4: one failing `sendMail` call makes the next suggestion the
Reviewer's tool-call critique rather than `"CONTINUE"`. -/
theorem C4_witness :
    (Python.ExecutorModule.iterate envToolErr cfgPlain seededState).1.suggestion =
      "Fix the SMTP configuration." := by
  have h := (C4_suggestion_after_tool_batch envToolErr cfgPlain seededState
    ⟨FinishReason.COMPLETED, ⟨[callBad], "", .error "no text"⟩⟩
    rfl rfl (by simp)).2.1 (by decide)
  rw [h]
  rfl

/-- C5: a tool capability that raises never propagates out of `execute`:
the exception is wrapped by `ToolCallResult.from_exception` into an error
result with text `"Error: <exception>"`, a `ToolCallStep` recording the call
is still appended after the untouched earlier ledger entries, and the
iteration continues instead of breaking the loop. -/
theorem C5_tool_exception_wrapped :
    (∀ (call : ToolCall) (exc : String),
      ToolCallResult.from_exception call exc =
        ⟨call.id, call.tool_id, some ("Error: " ++ exc), true⟩) ∧
    (∀ (id : String) (steps : List Step) (call : ToolCall) (rest : List ToolCall)
        (we : Bool) (exc : String),
      call.execOutcome = .error exc →
      Python.ExecutorModule.process_tool_calls id steps (call :: rest) we =
        (let steps' := steps ++ [Python.ExecutorModule.tool_call_step id call
            (ToolCallResult.from_exception call exc)]
         if steps'.length > Python.ExecutorModule.MAX_STEPS then (steps', true)
         else Python.ExecutorModule.process_tool_calls id steps' rest true)) ∧
    (∀ (id : String) (steps : List Step) (calls : List ToolCall) (we : Bool),
      steps <+: (Python.ExecutorModule.process_tool_calls id steps calls we).1) ∧
    (∀ (env : Env) (cfg : ExecConfig) (st : ExecState) (reply : ChatCompletion),
      env.chat st.chat_calls = .ok reply →
      reply.finish_reason = FinishReason.COMPLETED →
      reply.message.tool_calls ≠ [] →
      (Python.ExecutorModule.iterate env cfg st).2 = false) := by
  refine ⟨fun _ _ => rfl, ?_, ?_, ?_⟩
  · intro id steps call rest we exc h
    simp [Python.ExecutorModule.process_tool_calls, h]
  · intro id steps calls we
    exact py_ptc_front id calls steps we
  · intro env cfg st reply hchat hfr hcalls
    rw [py_iterate_tool_calls env cfg st reply hchat hfr hcalls]
    dsimp only
    split
    · split <;> rfl
    · rfl

/-- Witness for C5: the raising `sendMail` call is wrapped and recorded, and
the batch reports the error without raising. -/
theorem C5_witness :
    (Python.ExecutorModule.process_tool_calls "x-executor" [] [callBad] false).1 =
      [Python.ExecutorModule.tool_call_step "x-executor" callBad
        (ToolCallResult.from_exception callBad "SMTP down")] ∧
    (Python.ExecutorModule.process_tool_calls "x-executor" [] [callBad] false).2 = true := by
  have h := C5_tool_exception_wrapped.2.1 "x-executor" [] callBad [] false "SMTP down" rfl
  rw [h]
  exact ⟨rfl, rfl⟩

theorem py_loop_of_guard_false (env : Env) (cfg : ExecConfig) (fuel : Nat)
    (st : ExecState) (h : Python.ExecutorModule.loopGuard st.steps = false) :
    Python.ExecutorModule.loop env cfg fuel st = some st := by
  cases fuel <;> simp [Python.ExecutorModule.loop, h]

theorem py_loop_succ_of_guard_true (env : Env) (cfg : ExecConfig) (fuel : Nat)
    (st : ExecState) (h : Python.ExecutorModule.loopGuard st.steps = true) :
    Python.ExecutorModule.loop env cfg (fuel + 1) st =
      (if (Python.ExecutorModule.iterate env cfg st).2 then
        some (Python.ExecutorModule.iterate env cfg st).1
       else Python.ExecutorModule.loop env cfg fuel
        (Python.ExecutorModule.iterate env cfg st).1) := by
  simp [Python.ExecutorModule.loop, h]

theorem py_iterate_parse_final (env : Env) (cfg : ExecConfig) (st : ExecState)
    (reply : ChatCompletion) (p : ParsedStep)
    (hchat : env.chat st.chat_calls = .ok reply)
    (hfr : reply.finish_reason = FinishReason.COMPLETED)
    (hcalls : reply.message.tool_calls = [])
    (hp : reply.message.parsed = .ok p)
    (hstat : p.status ≠ some Status.IN_PROGRESS) :
    ∃ sug rc, Python.ExecutorModule.iterate env cfg st =
      ({ st with
          steps := st.steps ++ [Step.base p.status cfg.id p.thought p.observation],
          suggestion := sug,
          chat_calls := st.chat_calls + 1,
          review_conclusion_calls := rc }, false) := by
  rw [py_iterate_no_tool_calls env cfg st reply hchat hfr hcalls, hp]
  dsimp only
  rw [if_pos (by simpa [Step.status] using hstat)]
  split
  · exact ⟨_, _, rfl⟩
  · exact ⟨_, _, rfl⟩

/-- C6: when the gateway always returns a `COMPLETED` completion with no tool
calls whose text parses as a valid step with `status=COMPLETED`, the run ends
with exactly two ledger entries — the seed step followed by the final step —
after one model call, and the returned step's status is `COMPLETED`. -/
theorem C6_trivial_completion_two_entries (env : Env) (cfg : ExecConfig)
    (command : String) (reply : Nat → ChatCompletion) (p : Nat → ParsedStep)
    (hchat : ∀ n, env.chat n = .ok (reply n))
    (hfr : ∀ n, (reply n).finish_reason = FinishReason.COMPLETED)
    (hcalls : ∀ n, (reply n).message.tool_calls = [])
    (hp : ∀ n, (reply n).message.parsed = .ok (p n))
    (hstat : ∀ n, (p n).status = some Status.COMPLETED) :
    (Python.ExecutorModule.execute env cfg command).map ExecState.steps =
      some [Python.ExecutorModule.first_step cfg.id command,
            Step.base (some Status.COMPLETED) cfg.id (p 0).thought (p 0).observation] ∧
    ((Python.ExecutorModule.execute env cfg command).bind
        Python.ExecutorModule.finalStep).map Step.status =
      some (some Status.COMPLETED) ∧
    (Python.ExecutorModule.execute env cfg command).map ExecState.chat_calls =
      some 1 := by
  obtain ⟨sug, rc, hit⟩ := py_iterate_parse_final env cfg
    ⟨[Python.ExecutorModule.first_step cfg.id command], "CONTINUE", 0, 0, 0⟩
    (reply 0) (p 0) (hchat 0) (hfr 0) (hcalls 0) (hp 0)
    (by rw [hstat 0]; simp)
  have hguard0 : Python.ExecutorModule.loopGuard
      [Python.ExecutorModule.first_step cfg.id command] = true := rfl
  have hguard2 : Python.ExecutorModule.loopGuard
      ([Python.ExecutorModule.first_step cfg.id command] ++
        [Step.base (p 0).status cfg.id (p 0).thought (p 0).observation]) = false := by
    simp [Python.ExecutorModule.loopGuard, ReactAgent.get_last_step, Step.status, hstat 0]
  have hexec : Python.ExecutorModule.execute env cfg command =
      some ⟨[Python.ExecutorModule.first_step cfg.id command] ++
              [Step.base (p 0).status cfg.id (p 0).thought (p 0).observation],
            sug, 1, 0, rc⟩ := by
    have hms : Python.ExecutorModule.MAX_STEPS = 39 + 1 := rfl
    dsimp only at hit
    simp only [Nat.zero_add] at hit
    simp only [Python.ExecutorModule.execute]
    rw [hms, py_loop_succ_of_guard_true env cfg 39 _ hguard0, hit]
    rw [if_neg (by simp)]
    rw [py_loop_of_guard_false env cfg 39 _ hguard2]
    dsimp only
    rw [if_neg (by
      simp only [List.length_append, List.length_singleton]
      omega)]
  refine ⟨?_, ?_, ?_⟩
  · rw [hexec]
    simp [hstat 0]
  · rw [hexec]
    simp [Python.ExecutorModule.finalStep, ReactAgent.get_last_step, Step.status, hstat 0]
  · rw [hexec]
    rfl

/-- Witness for C6: with a model that immediately concludes, the ledger is
exactly the seed step and the final `COMPLETED` step. -/
theorem C6_witness :
    (Python.ExecutorModule.execute envDone cfgChecked "Send the email.").map
        ExecState.steps =
      some [Python.ExecutorModule.first_step "x-executor" "Send the email.",
            Step.base (some Status.COMPLETED) "x-executor" "All done." "Done."] ∧
    ((Python.ExecutorModule.execute envDone cfgChecked "Send the email.").bind
        Python.ExecutorModule.finalStep).map Step.status =
      some (some Status.COMPLETED) ∧
    (Python.ExecutorModule.execute envDone cfgChecked "Send the email.").map
        ExecState.chat_calls = some 1 :=
  C6_trivial_completion_two_entries envDone cfgChecked "Send the email."
    (fun _ => doneReply) (fun _ => ⟨some Status.COMPLETED, "model-self", "All done.", "Done."⟩)
    (fun _ => rfl) (fun _ => rfl) (fun _ => rfl) (fun _ => rfl) (fun _ => rfl)

/-- C7: on an initialized `ToolableReactAgent` tool, `invoke` returns an
immediate error result (and performs no model call) when the arguments carry
no usable `question` value; otherwise it delegates to `execute(question)` and
returns the final step's observation, prefixed with `"ERROR: "` exactly when
that step's status is `ERROR`; and the invocation always produces a result. -/
theorem C7_invoke_question_handling :
    (∀ (env : Env) (cfg : ExecConfig) (call : ToolCall),
      AbstractTool.get_string "question" call.arguments none = none →
      ToolableReactAgent.invoke env cfg call =
        some (ToolCallResult.from_call call
          (some "ERROR: You must provide a command to execute as \"question\" parameter."),
          0)) ∧
    (∀ (env : Env) (cfg : ExecConfig) (call : ToolCall) (q : String)
        (st : ExecState) (rs : Step),
      AbstractTool.get_string "question" call.arguments none = some q →
      Resources.ExecutorModule.execute env cfg q = some st →
      Resources.ExecutorModule.finalStep st = some rs →
      ToolableReactAgent.invoke env cfg call =
        some (ToolCallResult.from_call call
          (some (if rs.status = some Status.ERROR then "ERROR: " ++ rs.observation
                 else rs.observation)), st.chat_calls)) ∧
    (∀ (env : Env) (cfg : ExecConfig) (call : ToolCall),
      (ToolableReactAgent.invoke env cfg call).isSome) := by
  refine ⟨?_, ?_, ?_⟩
  · intro env cfg call h
    simp [ToolableReactAgent.invoke, h]
  · intro env cfg call q st rs hq hex hrs
    simp only [ToolableReactAgent.invoke, hq, hex, hrs]
    by_cases he : rs.status = some Status.ERROR
    · rw [if_pos he, if_pos he]
    · rw [if_neg he, if_neg he]
  · intro env cfg call
    rcases hq : AbstractTool.get_string "question" call.arguments none with _ | q
    · simp [ToolableReactAgent.invoke, hq]
    · obtain ⟨st, hst, hne⟩ := res_execute_isSome env cfg q
      rcases hrs : Resources.ExecutorModule.finalStep st with _ | rs
      · exact absurd (List.getLast?_eq_none_iff.mp hrs) hne
      · simp only [ToolableReactAgent.invoke, hq, hst, hrs]
        split <;> rfl

/-- Witness for C7: with a `question` argument the wrapped agent runs and the
final observation is returned verbatim (one model call); the result for the
terminal `COMPLETED` status carries no error prefix. -/
theorem C7_witness :
    ToolableReactAgent.invoke envDone cfgPlain callQuestion =
      some (ToolCallResult.from_call callQuestion (some "Done."), 1) := by
  have h := C7_invoke_question_handling.2.1 envDone cfgPlain callQuestion
    "Send the email."
    ⟨[Resources.ExecutorModule.first_step "x-executor" "Send the email.",
      Step.base (some Status.COMPLETED) "x-executor" "All done." "Done."],
     "No suggestions. Proceed as you see best, using the tools at your disposal.",
     1, 0, 0⟩
    (Step.base (some Status.COMPLETED) "x-executor" "All done." "Done.")
    rfl rfl rfl
  rw [h]
  rfl

/-- C9: every ledger entry carries the executor module's own id as `actor` —
established by the seed step, preserved by every loop iteration (the actor of
a parsed model step is overwritten before it is appended), and therefore true
of the whole ledger `execute` leaves behind. -/
theorem C9_actor_invariant :
    (∀ (id command : String),
      (Python.ExecutorModule.first_step id command).actor = id) ∧
    (∀ (env : Env) (cfg : ExecConfig) (st : ExecState),
      (∀ s ∈ st.steps, s.actor = cfg.id) →
      ∀ s ∈ (Python.ExecutorModule.iterate env cfg st).1.steps, s.actor = cfg.id) ∧
    (∀ (env : Env) (cfg : ExecConfig) (command : String) (st : ExecState),
      Python.ExecutorModule.execute env cfg command = some st →
      ∀ s ∈ st.steps, s.actor = cfg.id) :=
  ⟨py_first_step_actor, py_iterate_actor, py_execute_actor⟩

/-- Witness for C9: the final step of a concrete run carries the executor's
id, obtained from the run-level invariant. -/
theorem C9_witness :
    Step.actor (Step.base (some Status.COMPLETED) "x-executor" "All done." "Done.") =
      "x-executor" :=
  C9_actor_invariant.2.2 envDone cfgChecked "Send the email."
    ⟨[Python.ExecutorModule.first_step "x-executor" "Send the email.",
      Step.base (some Status.COMPLETED) "x-executor" "All done." "Done."],
     "You still have to send the email to the customer.", 1, 0, 1⟩
    rfl
    (Step.base (some Status.COMPLETED) "x-executor" "All done." "Done.")
    (by simp)

/-- C10: each loop iteration only appends to the ledger — every entry present
before the iteration keeps all its fields (both executor drafts); the one
in-place mutation the executor performs is setting the just-appended last
entry's status to `IN_PROGRESS`, which changes no other field, and it happens
exactly in the conclusion-review branch when the critique lacks
`"continue"`. -/
theorem C10_ledger_frame_property :
    (∀ (env : Env) (cfg : ExecConfig) (st : ExecState),
      ∃ tail, (Python.ExecutorModule.iterate env cfg st).1.steps = st.steps ++ tail) ∧
    (∀ (env : Env) (cfg : ExecConfig) (st : ExecState),
      ∃ tail, (Resources.ExecutorModule.iterate env cfg st).1.steps = st.steps ++ tail) ∧
    (∀ (s : Step),
      (s.setStatus (some Status.IN_PROGRESS)).eraseStatus = s.eraseStatus ∧
      (s.setStatus (some Status.IN_PROGRESS)).status = some Status.IN_PROGRESS) ∧
    (∀ (env : Env) (cfg : ExecConfig) (st : ExecState) (reply : ChatCompletion)
        (p : ParsedStep),
      env.chat st.chat_calls = .ok reply →
      reply.finish_reason = FinishReason.COMPLETED →
      reply.message.tool_calls = [] →
      reply.message.parsed = .ok p →
      p.status ≠ some Status.IN_PROGRESS →
      cfg.check_last_step = true →
      pyIn "continue" (pyLower (env.review_conclusions st.review_conclusion_calls)) =
        false →
      (Resources.ExecutorModule.iterate env cfg st).1.steps =
        st.steps ++ [(Step.base p.status cfg.id p.thought p.observation).setStatus
          (some Status.IN_PROGRESS)]) := by
  refine ⟨py_iterate_extends, res_iterate_extends, ?_, ?_⟩
  · intro s
    exact ⟨Step.setStatus_eraseStatus s _, Step.setStatus_status s _⟩
  · intro env cfg st reply p h1 h2 h3 h4 h5 h6 h7
    rw [res_conclusion_veto_forces_in_progress env cfg st reply p h1 h2 h3 h4 h5 h6 h7]
    rfl

/-- Witness for C10: in a concrete vetoed-conclusion iteration of the
resources draft, the new ledger is the old one plus the appended step with
only its status forced to `IN_PROGRESS`. -/
theorem C10_witness :
    (Resources.ExecutorModule.iterate envDone cfgChecked
        ⟨[Resources.ExecutorModule.first_step "x-executor" "Send the email."],
         "No suggestions. Proceed as you see best, using the tools at your disposal.",
         0, 0, 0⟩).1.steps =
      [Resources.ExecutorModule.first_step "x-executor" "Send the email."] ++
        [(Step.base (some Status.COMPLETED) "x-executor" "All done." "Done.").setStatus
          (some Status.IN_PROGRESS)] :=
  C10_ledger_frame_property.2.2.2 envDone cfgChecked
    ⟨[Resources.ExecutorModule.first_step "x-executor" "Send the email."],
     "No suggestions. Proceed as you see best, using the tools at your disposal.",
     0, 0, 0⟩
    doneReply ⟨some Status.COMPLETED, "model-self", "All done.", "Done."⟩
    rfl rfl rfl rfl (by decide) rfl (by decide)

/-- C1 (evaluation at the failing input): in the python draft, after a model
reply that parses as a `COMPLETED` step, with last-step verification enabled
and a reviewer critique containing no `"continue"`, the run still ends with
the last step's status left `COMPLETED` and a two-entry ledger — the critique
was requested (one `review_conclusions` call) but its veto was discarded, the
status was never forced back to `IN_PROGRESS` and the loop did not continue. -/
theorem C1_python_draft_ignores_conclusion_veto :
    pyIn "continue" (pyLower (envDone.review_conclusions 0)) = false ∧
    (Python.ExecutorModule.execute envDone cfgChecked "Send the email.").map
        (fun st => (st.steps.length, st.review_conclusion_calls,
          (Python.ExecutorModule.finalStep st).map Step.status)) =
      some (2, 1, some (some Status.COMPLETED)) :=
  ⟨by decide, rfl⟩

end ReactCore
